import Mathlib

/-!
Shallow embedding of the OnlineCatalogMaker PDF processing pipeline
(`backend/src/services/pdf/processor.js`) and of the page-management
controller (delete / reorder / insert / replace).  Page geometry and text
coordinates are JavaScript numbers in the source; they are modelled here
with rationals, with the division-by-zero comparison spelled out where the
source divides by a page height.  Database tables are modelled as lists of
rows, the upload directory as a list of file names.
-/

set_option allowUnsafeReducibility true
attribute [local semireducible] Rat.add Rat.sub Rat.mul Rat.div Rat.neg Rat.normalize
  Rat.maybeNormalize Rat.inv

namespace CatalogMaker

/-- One page of an uploaded source document, as reported by
`page.getSize()` in `analyzePages`: width and height in points. -/
structure SourcePage where
  width : ℚ
  height : ℚ
deriving DecidableEq, Repr

/-- One element of the `pageStructure` array built by
`PDFProcessor.analyzePages`.  The source also stores the float
`aspectRatio` for logging; it is omitted here because `width/0` has no
rational value, and only `isDoublePage` is consumed downstream. -/
structure PageClassification where
  index : Nat
  width : ℚ
  height : ℚ
  isDoublePage : Bool
deriving DecidableEq, Repr

/-- JavaScript's `width / height > 1.5` over IEEE numbers, transcribed to
rationals.  When `height = 0` the JavaScript quotient is `Infinity`
(for `width > 0`), `-Infinity` (for `width < 0`) or `NaN` (for
`width = 0`), so the comparison with `1.5` holds exactly when
`0 < width`.  For `height ≠ 0` the rational comparison is used. -/
def ratioGtThreshold (w h : ℚ) : Bool :=
  if h = 0 then decide (0 < w) else decide (w / h > 3 / 2)

/-- The classification record pushed for source page `i`. -/
def classifyPage (i : Nat) (p : SourcePage) : PageClassification :=
  { index := i
    width := p.width
    height := p.height
    isDoublePage := ratioGtThreshold p.width p.height }

/-- `PDFProcessor.analyzePages`: classify every source page in order. -/
def analyzePages (doc : List SourcePage) : List PageClassification :=
  doc.enum.map (fun e => classifyPage e.1 e.2)

/-- Number of output pages one classified source page yields
(`p.isDoublePage ? 2 : 1`). -/
def pageSpan (p : PageClassification) : Nat :=
  if p.isDoublePage then 2 else 1

/-- `pageStructure.reduce((sum, p) => sum + (p.isDoublePage ? 2 : 1), 0)`. -/
def totalOutput (struct : List PageClassification) : Nat :=
  (struct.map pageSpan).sum

/-- Output page numbers assigned to each source page in turn by the
processing loop of `PDFProcessor.process`, starting at `n`: a double page
takes `n` and `n + 1`, a single page takes `n`, and the counter advances
by the span. -/
def outputNumbersFrom (n : Nat) : List PageClassification → List (List Nat)
  | [] => []
  | p :: rest =>
      (if p.isDoublePage then [n, n + 1] else [n]) ::
        outputNumbersFrom (n + pageSpan p) rest

/-- One positioned text item of `textContent.items` as reported by pdfjs:
the text, the relevant transform entries (`transform[0]` is the font size
scale, `transform[4]`/`transform[5]` the origin in bottom-left PDF
coordinates), the extent, and the font name. -/
structure TextItem where
  str : String
  transform0 : ℚ
  transform4 : ℚ
  transform5 : ℚ
  width : ℚ
  height : ℚ
  fontName : String
deriving DecidableEq, Repr

/-- A word record as built inside `groupIntoParagraphs`. -/
structure Word where
  text : String
  x : ℚ
  y : ℚ
  width : ℚ
  height : ℚ
  fontName : String
  fontSize : ℚ
deriving DecidableEq, Repr

/-- A paragraph record as built by `groupIntoParagraphs`. -/
structure Paragraph where
  text : String
  x : ℚ
  y : ℚ
  width : ℚ
  height : ℚ
  words : List Word
deriving DecidableEq, Repr

/-- The `lineThreshold` design constant (5 pixels). -/
def lineThreshold : ℚ := 5

/-- JavaScript's `String.prototype.trim`: strip whitespace from both ends
(modelled over the character list so that it evaluates by reduction). -/
def trimString (s : String) : String :=
  ⟨((s.data.dropWhile Char.isWhitespace).reverse.dropWhile Char.isWhitespace).reverse⟩

/-- The word built from one text item: `x = transform[4]`,
`y = viewport.height - transform[5]` (the Y flip), `fontSize =
transform[0]`. -/
def wordOfItem (viewportHeight : ℚ) (it : TextItem) : Word :=
  { text := it.str
    x := it.transform4
    y := viewportHeight - it.transform5
    width := it.width
    height := it.height
    fontName := it.fontName
    fontSize := it.transform0 }

/-- State of the `groupIntoParagraphs` loop: the paragraphs already pushed
plus the current paragraph and `lastY`.  In the source both
`currentParagraph` and `lastY` start as `null` and are set together by the
first non-blank item, so they are paired in a single `Option`. -/
structure GroupState where
  paragraphs : List Paragraph
  current : Option (Paragraph × ℚ)
deriving DecidableEq, Repr

/-- The fresh one-word paragraph started for item `it` (the object literal
assigned to `currentParagraph` in the source). -/
def startParagraph (viewportHeight : ℚ) (it : TextItem) : Paragraph :=
  { text := it.str
    x := (wordOfItem viewportHeight it).x
    y := (wordOfItem viewportHeight it).y
    width := (wordOfItem viewportHeight it).width
    height := (wordOfItem viewportHeight it).height
    words := [wordOfItem viewportHeight it] }

/-- The current paragraph after item `it` is appended to it: space-joined
text, width and height folded with `max`, the word pushed. -/
def appendParagraph (viewportHeight : ℚ) (cur : Paragraph) (it : TextItem) : Paragraph :=
  { cur with
    text := cur.text ++ " " ++ it.str
    width := max cur.width
      ((wordOfItem viewportHeight it).x + (wordOfItem viewportHeight it).width - cur.x)
    height := max cur.height (wordOfItem viewportHeight it).height
    words := cur.words ++ [wordOfItem viewportHeight it] }

/-- One iteration of the `for (const item of items)` loop of
`groupIntoParagraphs`: skip blank items; otherwise either append to the
current paragraph or push it and start a new one, and record `lastY := y`
in every non-skipped case. -/
def groupStep (viewportHeight : ℚ) (st : GroupState) (it : TextItem) : GroupState :=
  if trimString it.str = "" then st
  else
    match st.current with
    | some (cur, lastY) =>
        if |(wordOfItem viewportHeight it).y - lastY| > lineThreshold then
          { paragraphs := st.paragraphs ++ [cur]
            current := some (startParagraph viewportHeight it,
              (wordOfItem viewportHeight it).y) }
        else
          { paragraphs := st.paragraphs
            current := some (appendParagraph viewportHeight cur it,
              (wordOfItem viewportHeight it).y) }
    | none =>
        { paragraphs := st.paragraphs
          current := some (startParagraph viewportHeight it,
            (wordOfItem viewportHeight it).y) }

/-- The final `if (currentParagraph) paragraphs.push(currentParagraph)`. -/
def finishGroup (st : GroupState) : List Paragraph :=
  match st.current with
  | some e => st.paragraphs ++ [e.1]
  | none => st.paragraphs

/-- `PDFProcessor.groupIntoParagraphs`: fold the loop over the items and
push the last open paragraph. -/
def groupIntoParagraphs (items : List TextItem) (viewportHeight : ℚ) : List Paragraph :=
  finishGroup
    (items.foldl (groupStep viewportHeight) { paragraphs := [], current := none })

/-- The filter predicate of `extractTextFromCrop`: the item's origin
`(transform[4], viewport.height - transform[5])` falls inside the crop
rectangle (`>=` on the low edges, `<` on the high edges). -/
def inCropRegion (viewportHeight cropX cropY cropWidth cropHeight : ℚ)
    (it : TextItem) : Bool :=
  decide (cropX ≤ it.transform4) && decide (it.transform4 < cropX + cropWidth) &&
    decide (cropY ≤ viewportHeight - it.transform5) &&
    decide (viewportHeight - it.transform5 < cropY + cropHeight)

/-- The coordinate adjustment of `extractTextFromCrop`:
`transform[4] - cropX` and `transform[5] - cropY`. -/
def adjustItem (cropX cropY : ℚ) (it : TextItem) : TextItem :=
  { it with transform4 := it.transform4 - cropX, transform5 := it.transform5 - cropY }

/-- `filteredItems` of `extractTextFromCrop`. -/
def filteredItems (viewportHeight cropX cropY cropWidth cropHeight : ℚ)
    (items : List TextItem) : List TextItem :=
  items.filter (inCropRegion viewportHeight cropX cropY cropWidth cropHeight)

/-- `adjustedItems` of `extractTextFromCrop`. -/
def adjustedItems (viewportHeight cropX cropY cropWidth cropHeight : ℚ)
    (items : List TextItem) : List TextItem :=
  (filteredItems viewportHeight cropX cropY cropWidth cropHeight items).map
    (adjustItem cropX cropY)

/-- The pure core of `extractTextFromCrop`: filter, translate, then group
using the cropped viewport `{width: cropWidth, height: cropHeight}`. -/
def cropParagraphs (viewportHeight cropX cropY cropWidth cropHeight : ℚ)
    (items : List TextItem) : List Paragraph :=
  groupIntoParagraphs
    (adjustedItems viewportHeight cropX cropY cropWidth cropHeight items) cropHeight

/-- Catalog status values observed by clients. -/
inductive CatStatus where
  | pending
  | processing
  | ready
  | error
deriving DecidableEq, Repr

/-- A row of the `catalogs` table (the columns the processing and
mutation code touches). -/
structure CatalogRow where
  id : Nat
  totalPages : Nat
  status : CatStatus
  errorMessage : Option String
deriving DecidableEq, Repr

/-- A row of the `pages` table. -/
structure PageRow where
  id : Nat
  catalogId : Nat
  pageNumber : Nat
  pdfPath : String
  pngPath : String
  jpgPath : String
  svgPath : Option String
  textDbPath : String
  width : ℚ
  height : ℚ
deriving DecidableEq, Repr

/-- A row of the `clickable_areas` table (only the columns the
page-management code touches). -/
structure AreaRow where
  id : Nat
  pageId : Nat
deriving DecidableEq, Repr

/-- Persistent state: the three tables plus the set of files on disk
(page assets and per-page text databases), as a list of file names. -/
structure Db where
  catalogs : List CatalogRow
  pages : List PageRow
  areas : List AreaRow
  files : List String
deriving DecidableEq, Repr

/-- The pages of one catalog: `db('pages').where({catalog_id: c})`. -/
def catPages (db : Db) (c : Nat) : List PageRow :=
  db.pages.filter (fun p => p.catalogId = c)

/-- The `page_number` column of one catalog's pages. -/
def pageNums (db : Db) (c : Nat) : List Nat :=
  (catPages db c).map (fun p => p.pageNumber)

/-- `db('catalogs').where({id: c}).first()`. -/
def findCatalog (db : Db) (c : Nat) : Option CatalogRow :=
  db.catalogs.find? (fun r => r.id = c)

/-- `db('pages').where({id: pid}).first()`. -/
def findPage (db : Db) (pid : Nat) : Option PageRow :=
  db.pages.find? (fun p => p.id = pid)

/-- `db('catalogs').where({id: c}).update(...)`. -/
def setCatalog (db : Db) (c : Nat) (f : CatalogRow → CatalogRow) : Db :=
  { db with catalogs := db.catalogs.map (fun r => if r.id = c then f r else r) }

/-- The auto-increment id the next `db('pages').insert` returns. -/
def nextPageId (db : Db) : Nat :=
  (db.pages.map (fun p => p.id)).foldr max 0 + 1

/-- `fs.writeFile` of a fresh asset (a second write overwrites). -/
def addFile (db : Db) (s : String) : Db :=
  if s ∈ db.files then db else { db with files := db.files ++ [s] }

/-- `fs.unlink` (errors on missing files are caught and ignored). -/
def removeFile (db : Db) (s : String) : Db :=
  { db with files := db.files.filter (fun t => ¬ t = s) }

/-- Unlink all stored assets of a page row, as the delete/replace
controllers do (pdf, png, jpg, optional svg, text database). -/
def unlinkPageFiles (db : Db) (p : PageRow) : Db :=
  let db1 := removeFile db p.pdfPath
  let db2 := removeFile db1 p.pngPath
  let db3 := removeFile db2 p.jpgPath
  let db4 := match p.svgPath with
    | some s => removeFile db3 s
    | none => db3
  removeFile db4 p.textDbPath

/-- Relative path of the single-page pdf written for output page `n`. -/
def pagePdfPath (c n : Nat) : String :=
  "catalogs/" ++ toString c ++ "/pages/page_" ++ toString n ++ ".pdf"

/-- Relative path of the png image of output page `n`. -/
def pagePngPath (c n : Nat) : String :=
  "catalogs/" ++ toString c ++ "/pages/page_" ++ toString n ++ ".png"

/-- Relative path of the jpg image of output page `n`. -/
def pageJpgPath (c n : Nat) : String :=
  "catalogs/" ++ toString c ++ "/pages/page_" ++ toString n ++ ".jpg"

/-- The per-page text database path returned by `extractText`. -/
def textDbFile (c n : Nat) : String :=
  "data/page_" ++ toString c ++ "_" ++ toString n ++ ".db"

/-- The page row inserted for output page `n` (its id is the pages
table's auto-increment value, the successor of the largest existing
id). -/
def newRow (c : Nat) (db : Db) (n : Nat) (w h : ℚ) : PageRow :=
  { id := nextPageId db
    catalogId := c
    pageNumber := n
    pdfPath := pagePdfPath c n
    pngPath := pagePngPath c n
    jpgPath := pageJpgPath c n
    svgPath := none
    textDbPath := textDbFile c n
    width := w
    height := h }

/-- `PDFProcessor.processPage` / `processSplitPage` for one output page of
dimensions `w × h` at number `n`: write the single-page pdf, generate the
png and jpg, extract the text (driven by the `textOk` oracle: pdfjs and
text-database failures are real failure modes of step 3), then insert the
page row.  On a text-extraction failure the error propagates *before* the
row is inserted, leaving the already written image assets behind; the
returned flag records success.  The rasterized pixel dimensions reported
by the external image pipeline are modelled by `w` and `h` themselves. -/
def processOne (c : Nat) (textOk : Nat → Bool) (db : Db) (w h : ℚ) (n : Nat) :
    Db × Bool :=
  let db2 := addFile (addFile (addFile db (pagePdfPath c n)) (pagePngPath c n))
    (pageJpgPath c n)
  if textOk n then
    let db3 := addFile db2 (textDbFile c n)
    ({ db3 with pages := db3.pages ++ [newRow c db n w h] }, true)
  else (db2, false)

/-- `PDFProcessor.processDoublePage`: split at `halfWidth = width / 2`,
process the left half at `n` and the right half at `n + 1`. -/
def processDoublePage (c : Nat) (textOk : Nat → Bool) (db : Db)
    (p : SourcePage) (n : Nat) : Db × Bool :=
  let halfW := p.width / 2
  let r1 := processOne c textOk db halfW p.height n
  if r1.2 then processOne c textOk r1.1 halfW p.height (n + 1) else r1

/-- Process one classified source page at output number `n`. -/
def processSource (c : Nat) (textOk : Nat → Bool) (db : Db)
    (pc : PageClassification) (p : SourcePage) (n : Nat) : Db × Bool :=
  if pc.isDoublePage then processDoublePage c textOk db p n
  else processOne c textOk db p.width p.height n

/-- The page loop shared by `PDFProcessor.process` and the insert
controller: process each classified source page in order, advancing the
output number by the span; stop at the first failure. -/
def processLoop (c : Nat) (textOk : Nat → Bool) :
    Db → List (PageClassification × SourcePage) → Nat → Db × Bool
  | db, [], _ => (db, true)
  | db, e :: rest, n =>
      let r := processSource c textOk db e.1 e.2 n
      if r.2 then processLoop c textOk r.1 rest (n + pageSpan e.1) else r

/-- The initial catalog update of `PDFProcessor.process`: record the total
output page count and set status `processing`, once, before any page is
processed. -/
def runStart (db : Db) (c : Nat) (doc : List SourcePage) : Db :=
  setCatalog db c (fun r =>
    { r with totalPages := totalOutput (analyzePages doc), status := .processing })

/-- `PDFProcessor.process`: analyze, record the total with status
`processing`, process every source page from output number 1, then set
the terminal status — `ready` on success, `error` (with the error
message) when a page's processing failed.  Pages persisted before a
failure are not rolled back. -/
def runCatalog (db : Db) (c : Nat) (doc : List SourcePage) (textOk : Nat → Bool) : Db :=
  let struct := analyzePages doc
  let db1 := runStart db c doc
  let r := processLoop c textOk db1 (struct.zip doc) 1
  if r.2 then setCatalog r.1 c (fun row => { row with status := .ready })
  else
    setCatalog r.1 c (fun row =>
      { row with status := .error, errorMessage := some "Text extraction error" })

/-- `db('pages').where({id: pid}).delete()`. -/
def removePageRow (db : Db) (pid : Nat) : Db :=
  { db with pages := db.pages.filter (fun p => ¬ p.id = pid) }

/-- `db('clickable_areas').where({page_id: pid}).delete()` (run explicitly
by the replace controller, and implicitly by the delete controller through
the foreign-key cascade). -/
def deleteAreas (db : Db) (pid : Nat) : Db :=
  { db with areas := db.areas.filter (fun a => ¬ a.pageId = pid) }

/-- One `update({page_number: n})` statement addressed by page id. -/
def updateNumberById (pages : List PageRow) (pid n : Nat) : List PageRow :=
  pages.map (fun p => if p.id = pid then { p with pageNumber := n } else p)

/-- The renumbering `for` loop of the delete controller: `rem` is the
snapshot of the catalog's remaining pages read before the loop (ordered by
`page_number`), `k` counts the entries already handled, and the row with
`rem[i]`'s id is rewritten to `i + 1` whenever its snapshot number
differs. -/
def renumberLoop : List PageRow → Nat → List PageRow → List PageRow
  | pages, _, [] => pages
  | pages, k, r :: rs =>
      renumberLoop
        (if r.pageNumber = k + 1 then pages else updateNumberById pages r.id (k + 1))
        (k + 1) rs

/-- `orderBy('page_number')`. -/
def sortByNumber (l : List PageRow) : List PageRow :=
  l.mergeSort (fun a b => a.pageNumber ≤ b.pageNumber)

/-- The `deletePage` controller: look the page up (404 leaves the state
unchanged), unlink its files, delete the row (clickable areas cascade),
renumber the remaining pages of its catalog to `1..N-1` in ascending
`page_number` order, and store the new total. -/
def deletePage (db : Db) (pid : Nat) : Db :=
  match findPage db pid with
  | none => db
  | some page =>
      let c := page.catalogId
      let db1 := unlinkPageFiles db page
      let db2 := deleteAreas (removePageRow db1 pid) pid
      let remaining := sortByNumber (catPages db2 c)
      let db3 := { db2 with pages := renumberLoop db2.pages 0 remaining }
      setCatalog db3 c (fun r => { r with totalPages := remaining.length })

/-- One iteration of the reorder transaction:
`update({page_number}) where {id: pageId, catalog_id: catalogId}`. -/
def reorderStep (c : Nat) (pages : List PageRow) (ord : Nat × Nat) : List PageRow :=
  pages.map (fun p =>
    if p.id = ord.1 ∧ p.catalogId = c then { p with pageNumber := ord.2 } else p)

/-- The `reorderPages` controller: Joi validation (every `newPosition` at
least 1; otherwise 400 and no change), catalog existence check (404
otherwise), then one `page_number` update per supplied assignment inside a
transaction.  No completeness or uniqueness of the assignments is
checked. -/
def reorderPages (db : Db) (c : Nat) (orders : List (Nat × Nat)) : Db :=
  if orders.all (fun o => 1 ≤ o.2) then
    match findCatalog db c with
    | none => db
    | some _ => { db with pages := orders.foldl (reorderStep c) db.pages }
  else db

/-- The `insertPages` controller: validate the position (`>= 1`), check the
catalog, classify the uploaded document, shift every existing page of the
catalog with `page_number >= position` up by the total span of the new
pages, process the new pages at `position ..`, and finally store the
catalog's row count as its total.  A failure while processing the new
pages aborts before the total is updated (500), leaving the shift and any
already inserted pages behind. -/
def insertPages (db : Db) (c : Nat) (position : Nat) (doc : List SourcePage)
    (textOk : Nat → Bool) : Db :=
  if position < 1 then db
  else
    match findCatalog db c with
    | none => db
    | some _ =>
        let struct := analyzePages doc
        let k := totalOutput struct
        let toShift := (catPages db c).filter (fun p => position ≤ p.pageNumber)
        let shifts := toShift.map (fun p => (p.id, p.pageNumber + k))
        let db1 : Db :=
          { db with pages := shifts.foldl (fun ps u => updateNumberById ps u.1 u.2) db.pages }
        let r := processLoop c textOk db1 (struct.zip doc) position
        if r.2 then setCatalog r.1 c (fun row => { row with totalPages := (catPages r.1 c).length })
        else r.1

/-- HTTP outcome of the replace controller. -/
inductive ReplaceOutcome where
  | notFound
  | invalidInput
  | ok
  | serverError
deriving DecidableEq, Repr

/-- The `replacePage` controller.  Note the order of effects taken from
the source: the old files are unlinked and the page's clickable areas
deleted *before* the replacement's page count is validated; a document
whose page count is not exactly 1 is then rejected with 400.  Otherwise
the old row is deleted and the single replacement page is processed at the
old `page_number` (no double-page analysis is applied to it). -/
def replacePage (db : Db) (pid : Nat) (doc : List SourcePage) (textOk : Nat → Bool) :
    ReplaceOutcome × Db :=
  match findPage db pid with
  | none => (.notFound, db)
  | some page =>
      let db1 := unlinkPageFiles db page
      let db2 := deleteAreas db1 pid
      match doc with
      | [p] =>
          let db3 := removePageRow db2 pid
          let r := processOne page.catalogId textOk db3 p.width p.height page.pageNumber
          if r.2 then (.ok, r.1) else (.serverError, r.1)
      | _ => (.invalidInput, db2)

/-- A structural mutation, as named in the spec's PageMutationEngine.  The
insert and replace operations carry the uploaded document and the
text-extraction oracle of their run. -/
inductive MutationOp where
  | delete (pid : Nat)
  | reorder (orders : List (Nat × Nat))
  | insert (position : Nat) (doc : List SourcePage) (textOk : Nat → Bool)
  | replace (pid : Nat) (doc : List SourcePage) (textOk : Nat → Bool)

/-- Dispatch one mutation against catalog `c`. -/
def applyOp (c : Nat) (db : Db) : MutationOp → Db
  | .delete pid => deletePage db pid
  | .reorder orders => reorderPages db c orders
  | .insert position doc textOk => insertPages db c position doc textOk
  | .replace pid doc textOk => (replacePage db pid doc textOk).2

/-- Page ids are unique (the `pages` primary key). -/
def IdsOk (db : Db) : Prop :=
  (db.pages.map (fun p => p.id)).Nodup

/-- The page numbers of catalog `c` are exactly `{1..N}` where `N` is the
number of stored rows (as a multiset: a permutation of `[1, ..., N]`). -/
def NumsOk (db : Db) (c : Nat) : Prop :=
  (pageNums db c).Perm (List.range' 1 (catPages db c).length)

/-- The catalog's recorded total equals its stored row count. -/
def TotalOk (db : Db) (c : Nat) : Prop :=
  ∀ r ∈ db.catalogs, r.id = c → r.totalPages = (catPages db c).length

/-- The page-numbering invariant of the spec for catalog `c`. -/
def Inv (db : Db) (c : Nat) : Prop :=
  IdsOk db ∧ NumsOk db c ∧ TotalOk db c

instance (db : Db) (c : Nat) : Decidable (Inv db c) := by
  unfold Inv IdsOk NumsOk TotalOk
  infer_instance

/-- The arguments under which one mutation against catalog `c` is claimed
to preserve the numbering invariant, after correction: the deleted or
replaced page must exist in the catalog; a reorder must carry a complete
permutation (each page id exactly once, the new positions a permutation of
`1..N`); an insert position must not exceed `N + 1`; and the insert or
replace processing run must complete (no text-extraction failure). -/
def ValidOp (c : Nat) (db : Db) : MutationOp → Prop
  | .delete pid => ∃ p ∈ catPages db c, p.id = pid
  | .reorder orders =>
      (orders.map Prod.fst).Perm ((catPages db c).map (fun p => p.id)) ∧
      (orders.map Prod.snd).Perm (List.range' 1 (catPages db c).length)
  | .insert position _ textOk =>
      1 ≤ position ∧ position ≤ (catPages db c).length + 1 ∧ ∀ n, textOk n = true
  | .replace pid _ textOk =>
      (∃ p ∈ catPages db c, p.id = pid) ∧ ∀ n, textOk n = true

/-- Validity of a whole sequence of mutations, each judged against the
state it actually runs from. -/
def ValidSeq (c : Nat) : Db → List MutationOp → Prop
  | _, [] => True
  | db, op :: rest => ValidOp c db op ∧ ValidSeq c (applyOp c db op) rest

/-- Pointwise view of the renumbering loop (used to reason about it):
the row whose id occurs at position `i` of the snapshot is assigned
number `k + i + 1`; rows absent from the snapshot are unchanged. -/
def renumberFix : Nat → List PageRow → PageRow → PageRow
  | _, [], p => p
  | k, r :: rs, p =>
      if p.id = r.id then { p with pageNumber := k + 1 }
      else renumberFix (k + 1) rs p

/-- Pointwise view of a batch of `updateNumberById` statements: the last
matching assignment wins, which for distinct keys is the looked-up one. -/
def lookupFix (ups : List (Nat × Nat)) (p : PageRow) : PageRow :=
  match ups.lookup p.id with
  | some n => { p with pageNumber := n }
  | none => p

/-- Pointwise view of the reorder transaction: pages of other catalogs
are untouched; a page of catalog `c` takes its looked-up position. -/
def reorderFix (c : Nat) (orders : List (Nat × Nat)) (p : PageRow) : PageRow :=
  if p.catalogId = c then lookupFix orders p else p

/-- Every field of a page row except `page_number`: the frame the reorder
operation must preserve. -/
def frameFields (p : PageRow) :
    Nat × Nat × String × String × String × Option String × String × ℚ × ℚ :=
  (p.id, p.catalogId, p.pdfPath, p.pngPath, p.jpgPath, p.svgPath, p.textDbPath,
    p.width, p.height)

/-- The bounding-box bookkeeping `groupIntoParagraphs` actually performs
for a paragraph: `x`, `y` and the initial extent come from the first word,
and each appended word `w` folds `max` with `w.x + w.width - x` into the
width and `max` with `w.height` into the height. -/
def BoxFold (para : Paragraph) : Prop :=
  ∃ w0 ws, para.words = w0 :: ws ∧ para.x = w0.x ∧ para.y = w0.y ∧
    para.width = (ws.map (fun w => w.x + w.width - para.x)).foldl max w0.width ∧
    para.height = (ws.map (fun w => w.height)).foldl max w0.height

/-- The spec's reading of a paragraph box: it contains the word's box. -/
def boxContains (para : Paragraph) (w : Word) : Prop :=
  para.x ≤ w.x ∧ para.y ≤ w.y ∧ w.x + w.width ≤ para.x + para.width ∧
    w.y + w.height ≤ para.y + para.height

instance (para : Paragraph) (w : Word) : Decidable (boxContains para w) := by
  unfold boxContains
  infer_instance

/-- A two-page catalog in a consistent state, used as the concrete base
state of several counterexamples. -/
def exDb : Db :=
  { catalogs := [{ id := 1, totalPages := 2, status := .ready, errorMessage := none }]
    pages := [
      { id := 1, catalogId := 1, pageNumber := 1, pdfPath := "a.pdf", pngPath := "a.png",
        jpgPath := "a.jpg", svgPath := none, textDbPath := "a.db",
        width := 100, height := 100 },
      { id := 2, catalogId := 1, pageNumber := 2, pdfPath := "b.pdf", pngPath := "b.png",
        jpgPath := "b.jpg", svgPath := none, textDbPath := "b.db",
        width := 100, height := 100 }]
    areas := [{ id := 1, pageId := 1 }]
    files := ["a.pdf", "a.png", "a.jpg", "a.db", "b.pdf", "b.png", "b.jpg", "b.db"] }

/-- A fresh, empty one-catalog state (as right after upload). -/
def exFreshDb : Db :=
  { catalogs := [{ id := 1, totalPages := 0, status := .pending, errorMessage := none }]
    pages := []
    areas := []
    files := [] }

/-- Text items realizing the spec scenario `A, B, C` at flipped vertical
positions `100, 103, 130` under a viewport of height 200. -/
def itemA : TextItem :=
  { str := "A", transform0 := 10, transform4 := 0, transform5 := 100,
    width := 5, height := 10, fontName := "F" }

/-- Second scenario item (flipped y = 103). -/
def itemB : TextItem :=
  { str := "B", transform0 := 10, transform4 := 10, transform5 := 97,
    width := 5, height := 10, fontName := "F" }

/-- Third scenario item (flipped y = 130). -/
def itemC : TextItem :=
  { str := "C", transform0 := 10, transform4 := 0, transform5 := 70,
    width := 5, height := 10, fontName := "F" }

/-- An item whose flipped y (103 + 5) differs from `itemB`'s by exactly
the line threshold. -/
def itemD : TextItem :=
  { str := "D", transform0 := 10, transform4 := 20, transform5 := 92,
    width := 5, height := 10, fontName := "F" }

/-- An item whose origin lies inside the crop region
`(x, y, w, h) = (0, 0, 50, 50)` of a height-100 page (flipped y = 40), but
below the region's *bottom-left-origin* band: its translated vertical
coordinate comes out negative. -/
def cropItem : TextItem :=
  { str := "A", transform0 := 10, transform4 := 10, transform5 := 60,
    width := 5, height := 10, fontName := "F" }

/-- First item of the bounding-box counterexample: a word at `x = 50`. -/
def itemRight : TextItem :=
  { str := "B", transform0 := 10, transform4 := 50, transform5 := 100,
    width := 5, height := 10, fontName := "F" }

/-- Second item of the bounding-box counterexample: a word at `x = 10` on
the same line, which the paragraph box (anchored at the first word's
`x = 50`) does not contain. -/
def itemLeft : TextItem :=
  { str := "A", transform0 := 10, transform4 := 10, transform5 := 100,
    width := 5, height := 10, fontName := "F" }

/-- The three-page source document of the spec scenario, with aspect
ratios `[1.0, 2.0, 1.2]`. -/
def scenarioDoc : List SourcePage := [⟨100, 100⟩, ⟨200, 100⟩, ⟨120, 100⟩]

/-- A batch of `updateNumberById` statements run in order (the shape of
the shift loop in the insert controller). -/
def applyIdUpdates (pages : List PageRow) (ups : List (Nat × Nat)) : List PageRow :=
  ups.foldl (fun ps u => updateNumberById ps u.1 u.2) pages

/-- All words currently accounted for by a grouping state: the words of
the pushed paragraphs followed by those of the open paragraph. -/
def stWords (st : GroupState) : List Word :=
  st.paragraphs.flatMap (fun p => p.words) ++
    (match st.current with
     | some e => e.1.words
     | none => [])

/-- Every paragraph tracked by the state satisfies the bounding-box fold
discipline. -/
def StateBox (st : GroupState) : Prop :=
  (∀ p ∈ st.paragraphs, BoxFold p) ∧
    (∀ cur y, st.current = some (cur, y) → BoxFold cur)

/- ------------------------------------------------------------------ -/
/- Theorems.                                                          -/
/- ------------------------------------------------------------------ -/

theorem addFile_pages (db : Db) (s : String) : (addFile db s).pages = db.pages := by
  unfold addFile
  split <;> rfl

theorem addFile_catalogs (db : Db) (s : String) : (addFile db s).catalogs = db.catalogs := by
  unfold addFile
  split <;> rfl

theorem addFile_areas (db : Db) (s : String) : (addFile db s).areas = db.areas := by
  unfold addFile
  split <;> rfl

theorem removeFile_pages (db : Db) (s : String) : (removeFile db s).pages = db.pages := rfl

theorem removeFile_catalogs (db : Db) (s : String) :
    (removeFile db s).catalogs = db.catalogs := rfl

theorem removeFile_areas (db : Db) (s : String) : (removeFile db s).areas = db.areas := rfl

theorem unlinkPageFiles_pages (db : Db) (p : PageRow) :
    (unlinkPageFiles db p).pages = db.pages := by
  unfold unlinkPageFiles
  cases p.svgPath <;> rfl

theorem unlinkPageFiles_catalogs (db : Db) (p : PageRow) :
    (unlinkPageFiles db p).catalogs = db.catalogs := by
  unfold unlinkPageFiles
  cases p.svgPath <;> rfl

theorem unlinkPageFiles_areas (db : Db) (p : PageRow) :
    (unlinkPageFiles db p).areas = db.areas := by
  unfold unlinkPageFiles
  cases p.svgPath <;> rfl

theorem setCatalog_pages (db : Db) (c : Nat) (f : CatalogRow → CatalogRow) :
    (setCatalog db c f).pages = db.pages := rfl

theorem setCatalog_areas (db : Db) (c : Nat) (f : CatalogRow → CatalogRow) :
    (setCatalog db c f).areas = db.areas := rfl

theorem catPages_setCatalog (db : Db) (c c' : Nat) (f : CatalogRow → CatalogRow) :
    catPages (setCatalog db c' f) c = catPages db c := rfl

theorem removePageRow_pages (db : Db) (pid : Nat) :
    (removePageRow db pid).pages = db.pages.filter (fun p => ¬ p.id = pid) := rfl

theorem removePageRow_catalogs (db : Db) (pid : Nat) :
    (removePageRow db pid).catalogs = db.catalogs := rfl

theorem removePageRow_areas (db : Db) (pid : Nat) :
    (removePageRow db pid).areas = db.areas := rfl

theorem removePageRow_files (db : Db) (pid : Nat) :
    (removePageRow db pid).files = db.files := rfl

theorem deleteAreas_pages (db : Db) (pid : Nat) :
    (deleteAreas db pid).pages = db.pages := rfl

theorem deleteAreas_catalogs (db : Db) (pid : Nat) :
    (deleteAreas db pid).catalogs = db.catalogs := rfl

theorem deleteAreas_areas (db : Db) (pid : Nat) :
    (deleteAreas db pid).areas = db.areas.filter (fun a => ¬ a.pageId = pid) := rfl

theorem deleteAreas_files (db : Db) (pid : Nat) :
    (deleteAreas db pid).files = db.files := rfl

/-- **C5**: with positive height, a page is classified double exactly when
`width / height > 1.5` (strictly); the boundary value `1.5` itself is
single; and `analyzePages` is the pure, order-preserving per-index map of
the classification function over the source pages. -/
theorem doublePageClassification (w h : ℚ) (hh : 0 < h) :
    (ratioGtThreshold w h = true ↔ w / h > 3 / 2) ∧
    (w / h = 3 / 2 → ratioGtThreshold w h = false) ∧
    (∀ doc : List SourcePage, ∀ i : Nat,
      (analyzePages doc)[i]? = doc[i]?.map (classifyPage i)) := by
  refine ⟨?_, ?_, ?_⟩
  · simp [ratioGtThreshold, hh.ne']
  · intro he
    simp [ratioGtThreshold, hh.ne', he]
  · intro doc i
    simp [analyzePages, List.getElem?_enum]
    cases doc[i]? <;> rfl

/-- Witness for `doublePageClassification` at `w = 2, h = 1`. -/
theorem doublePageClassificationWitness :
    (ratioGtThreshold 2 1 = true ↔ (2 : ℚ) / 1 > 3 / 2) ∧
    ((2 : ℚ) / 1 = 3 / 2 → ratioGtThreshold 2 1 = false) ∧
    (∀ doc : List SourcePage, ∀ i : Nat,
      (analyzePages doc)[i]? = doc[i]?.map (classifyPage i)) :=
  doublePageClassification 2 1 (by norm_num)

/-- **C9** (amended): the page analyzer is a pure, total, order-preserving
map with no failure signal at all: a zero-height page (with positive
width) is classified double — JavaScript's `width/0 = Infinity` exceeds
the threshold — and a negative-height page (with positive width) is
classified single.  No `InvalidGeometry` error exists in the code. -/
theorem geometryAnalyzerNoFailure :
    (∀ doc : List SourcePage, ∀ i : Nat,
      (analyzePages doc)[i]? = doc[i]?.map (classifyPage i)) ∧
    (∀ w h : ℚ, h = 0 → 0 < w → ratioGtThreshold w h = true) ∧
    (∀ w h : ℚ, h < 0 → 0 < w → ratioGtThreshold w h = false) := by
  refine ⟨?_, ?_, ?_⟩
  · intro doc i
    simp [analyzePages, List.getElem?_enum]
    cases doc[i]? <;> rfl
  · intro w h h0 hw
    simp [ratioGtThreshold, h0, hw]
  · intro w h h0 hw
    have hne : h ≠ 0 := ne_of_lt h0
    have hdiv : w / h < 0 := div_neg_of_pos_of_neg hw h0
    unfold ratioGtThreshold
    rw [if_neg hne, decide_eq_false_iff_not]
    intro hgt
    linarith

/-- Witness for `geometryAnalyzerNoFailure` at concrete geometries. -/
theorem geometryAnalyzerNoFailureWitness :
    ratioGtThreshold 100 0 = true ∧ ratioGtThreshold 100 (-50) = false :=
  ⟨geometryAnalyzerNoFailure.2.1 100 0 rfl (by norm_num),
   geometryAnalyzerNoFailure.2.2 100 (-50) (by norm_num) (by norm_num)⟩

/-- **C9** counterexample to the claim as stated: a zero-height page does
not signal any `InvalidGeometry` error — `analyzePages` returns an
ordinary classification for it (double, since `100/0 = Infinity > 1.5`),
and the pipeline carries on. -/
theorem geometryAnalyzerCounterexample :
    analyzePages [⟨100, 0⟩] =
      [{ index := 0, width := 100, height := 0, isDoublePage := true }] := by
  decide

theorem groupStep_blank (viewportHeight : ℚ) (st : GroupState) (it : TextItem)
    (hb : trimString it.str = "") : groupStep viewportHeight st it = st := by
  simp [groupStep, hb]

theorem groupStep_start (viewportHeight : ℚ) (st : GroupState) (it : TextItem)
    (hb : ¬ trimString it.str = "") (hc : st.current = none) :
    groupStep viewportHeight st it =
      { paragraphs := st.paragraphs
        current := some (startParagraph viewportHeight it,
          (wordOfItem viewportHeight it).y) } := by
  simp [groupStep, hb, hc]

theorem groupStep_push (viewportHeight : ℚ) (st : GroupState) (it : TextItem)
    (cur : Paragraph) (lastY : ℚ) (hb : ¬ trimString it.str = "")
    (hc : st.current = some (cur, lastY))
    (hgt : |(wordOfItem viewportHeight it).y - lastY| > lineThreshold) :
    groupStep viewportHeight st it =
      { paragraphs := st.paragraphs ++ [cur]
        current := some (startParagraph viewportHeight it,
          (wordOfItem viewportHeight it).y) } := by
  simp [groupStep, hb, hc, hgt]

theorem groupStep_append (viewportHeight : ℚ) (st : GroupState) (it : TextItem)
    (cur : Paragraph) (lastY : ℚ) (hb : ¬ trimString it.str = "")
    (hc : st.current = some (cur, lastY))
    (hgt : ¬ |(wordOfItem viewportHeight it).y - lastY| > lineThreshold) :
    groupStep viewportHeight st it =
      { paragraphs := st.paragraphs
        current := some (appendParagraph viewportHeight cur it,
          (wordOfItem viewportHeight it).y) } := by
  simp [groupStep, hb, hc, hgt]

/-- **C6**: paragraph grouping is a single pass in input order: blank
(trimmed-empty) runs are skipped and leave the state untouched; with a
current paragraph, a break happens exactly when `|y - lastY| > 5`
(strictly, so a gap of exactly 5 appends); `lastY` becomes the run's `y`
after every non-skipped run regardless of a break; and the spec scenario
`A, B, C` at y `100, 103, 130` yields the paragraphs `"A B"` and `"C"`. -/
theorem paragraphGroupingRules :
    ((groupIntoParagraphs [itemA, itemB, itemC] 200).map (fun p => p.text)
        = ["A B", "C"]) ∧
    (∀ (viewportHeight : ℚ) (st : GroupState) (it : TextItem),
      trimString it.str = "" → groupStep viewportHeight st it = st) ∧
    (∀ (viewportHeight : ℚ) (st : GroupState) (it : TextItem) (cur : Paragraph) (lastY : ℚ),
      ¬ trimString it.str = "" → st.current = some (cur, lastY) →
      ((¬ |(wordOfItem viewportHeight it).y - lastY| > lineThreshold →
          (groupStep viewportHeight st it).paragraphs = st.paragraphs ∧
          ∃ cur', (groupStep viewportHeight st it).current
              = some (cur', (wordOfItem viewportHeight it).y) ∧
            cur'.words = cur.words ++ [wordOfItem viewportHeight it] ∧
            cur'.text = cur.text ++ " " ++ it.str) ∧
       (|(wordOfItem viewportHeight it).y - lastY| > lineThreshold →
          (groupStep viewportHeight st it).paragraphs = st.paragraphs ++ [cur] ∧
          ∃ cur', (groupStep viewportHeight st it).current
              = some (cur', (wordOfItem viewportHeight it).y) ∧
            cur'.words = [wordOfItem viewportHeight it]))) ∧
    (∀ (viewportHeight : ℚ) (st : GroupState) (it : TextItem),
      ¬ trimString it.str = "" →
      ∃ cur', (groupStep viewportHeight st it).current
          = some (cur', (wordOfItem viewportHeight it).y)) ∧
    ((groupIntoParagraphs [itemB, itemD] 200).map (fun p => p.text) = ["B D"]) := by
  refine ⟨by decide, ?_, ?_, ?_, by decide⟩
  · intro H st it hblank
    simp [groupStep, hblank]
  · intro H st it cur lastY hblank hcur
    constructor
    · intro hle
      rw [groupStep_append H st it cur lastY hblank hcur hle]
      exact ⟨rfl, appendParagraph H cur it, rfl, rfl, rfl⟩
    · intro hgt
      rw [groupStep_push H st it cur lastY hblank hcur hgt]
      exact ⟨rfl, startParagraph H it, rfl, rfl⟩
  · intro H st it hblank
    cases hcur : st.current with
    | none => simp [groupStep, hblank, hcur]
    | some e =>
        obtain ⟨cur, lastY⟩ := e
        by_cases hgt : |(wordOfItem H it).y - lastY| > lineThreshold
        · simp [groupStep, hblank, hcur, hgt]
        · simp [groupStep, hblank, hcur, hgt]

/-- Witness for `paragraphGroupingRules`: a blank run leaves the state
unchanged, and a 5-unit gap (exactly the threshold) does not break. -/
theorem paragraphGroupingRulesWitness :
    groupStep 200 { paragraphs := [], current := none }
        { str := " ", transform0 := 1, transform4 := 0, transform5 := 0,
          width := 1, height := 1, fontName := "F" }
      = { paragraphs := [], current := none } ∧
    (groupIntoParagraphs [itemB, itemD] 200).map (fun p => p.text) = ["B D"] :=
  ⟨paragraphGroupingRules.2.1 200 { paragraphs := [], current := none } _ (by decide),
   paragraphGroupingRules.2.2.2.2⟩

/-- **C7** (amended): a run is kept by the crop filter exactly when its
origin (with flipped y) falls inside the region; every kept run's
translated x satisfies `0 ≤ x' < region.w`; and the translated vertical
coordinate satisfies `0 ≤ y' < region.h` for the full-height regions the
code actually crops (`region.y = 0` and `region.h` equal to the page
height), where `y'` is the flipped y of the adjusted run in the cropped
viewport — for other regions the code subtracts `region.y` from the
*unflipped* `transform[5]`, and the bound fails
(`cropTranslationCounterexample`). -/
theorem cropFilterBounds (viewportHeight cropX cropY cropWidth cropHeight : ℚ)
    (items : List TextItem) :
    (∀ it ∈ items,
      (it ∈ filteredItems viewportHeight cropX cropY cropWidth cropHeight items ↔
        (cropX ≤ it.transform4 ∧ it.transform4 < cropX + cropWidth ∧
         cropY ≤ viewportHeight - it.transform5 ∧
         viewportHeight - it.transform5 < cropY + cropHeight))) ∧
    (∀ it ∈ adjustedItems viewportHeight cropX cropY cropWidth cropHeight items,
      0 ≤ it.transform4 ∧ it.transform4 < cropWidth) ∧
    (cropY = 0 → cropHeight = viewportHeight →
      ∀ it ∈ adjustedItems viewportHeight cropX cropY cropWidth cropHeight items,
        0 ≤ cropHeight - it.transform5 ∧ cropHeight - it.transform5 < cropHeight) := by
  refine ⟨?_, ?_, ?_⟩
  · intro it hit
    simp [filteredItems, List.mem_filter, hit, inCropRegion, and_assoc]
  · intro it hit
    simp only [adjustedItems, List.mem_map] at hit
    obtain ⟨it0, hit0, rfl⟩ := hit
    simp only [filteredItems, List.mem_filter, inCropRegion, Bool.and_eq_true,
      decide_eq_true_eq] at hit0
    obtain ⟨-, ⟨⟨⟨h1, h2⟩, -⟩, -⟩⟩ := hit0
    constructor
    · simp only [adjustItem]
      linarith
    · simp only [adjustItem]
      linarith
  · intro hy0 hfull it hit
    simp only [adjustedItems, List.mem_map] at hit
    obtain ⟨it0, hit0, rfl⟩ := hit
    simp only [filteredItems, List.mem_filter, inCropRegion, Bool.and_eq_true,
      decide_eq_true_eq] at hit0
    obtain ⟨-, ⟨⟨⟨-, -⟩, h3⟩, h4⟩⟩ := hit0
    constructor
    · simp only [adjustItem]
      rw [hy0] at h4 ⊢
      rw [hfull]
      linarith
    · simp only [adjustItem]
      rw [hy0] at h3 ⊢
      rw [hfull]
      linarith

/-- Witness for `cropFilterBounds`: the run at source `(10, 60)` is kept
by the full-height region `(0, 0, 50, 100)` on a height-100 page (its
adjusted form with `cropX = cropY = 0` is itself), and the theorem's
x-bound and y-bound hold at that concrete kept run. -/
theorem cropFilterBoundsWitness :
    cropItem ∈ adjustedItems 100 0 0 50 100 [cropItem] ∧
    (0 ≤ cropItem.transform4 ∧ cropItem.transform4 < 50) ∧
    (0 ≤ (100 : ℚ) - cropItem.transform5 ∧ (100 : ℚ) - cropItem.transform5 < 100) :=
  ⟨by decide,
   (cropFilterBounds 100 0 0 50 100 [cropItem]).2.1 cropItem (by decide),
   (cropFilterBounds 100 0 0 50 100 [cropItem]).2.2 rfl rfl cropItem (by decide)⟩

/-- **C7** counterexample to the claim as stated: for the crop region
`(0, 0, 50, 50)` on a height-100 page, the run at source position
`(10, 60)` (flipped y `40`) is inside the region, yet its translated
vertical coordinate — the `y` of the word the pipeline stores — is `-10`,
violating `0 ≤ y' < region.h`.  The code subtracts `region.y` from the
unflipped `transform[5]` and then flips against the cropped height, which
only agrees with the claimed translation for full-height regions. -/
theorem cropTranslationCounterexample :
    cropItem ∈ filteredItems 100 0 0 50 50 [cropItem] ∧
    ((cropParagraphs 100 0 0 50 50 [cropItem]).flatMap (fun p => p.words)).map
        (fun w => w.y) = [-10] ∧
    ¬ (0 ≤ (-10 : ℚ)) := by
  refine ⟨by decide, by decide, by norm_num⟩

/-- **C8** counterexample to the claim as stated: grouping the runs `B` at
`x = 50` and `A` at `x = 10` on one line produces a single paragraph whose
box is anchored at the *first* word's `x = 50` with width 5, which does
not contain the second word's box at `x = 10`: a paragraph's bounding box
is not the union of its words' boxes. -/
theorem paragraphBoxCounterexample :
    ¬ (∀ para ∈ groupIntoParagraphs [itemRight, itemLeft] 200,
        ∀ w ∈ para.words, boxContains para w) := by
  decide

theorem stWords_step (viewportHeight : ℚ) (st : GroupState) (it : TextItem) :
    stWords (groupStep viewportHeight st it)
      = stWords st ++
          (if trimString it.str = "" then [] else [wordOfItem viewportHeight it]) := by
  by_cases hb : trimString it.str = ""
  · simp [groupStep_blank viewportHeight st it hb, hb]
  · cases hcur : st.current with
    | none =>
        rw [groupStep_start viewportHeight st it hb hcur, if_neg hb]
        simp [stWords, hcur, startParagraph]
    | some e =>
        obtain ⟨cur, lastY⟩ := e
        by_cases hgt : |(wordOfItem viewportHeight it).y - lastY| > lineThreshold
        · rw [groupStep_push viewportHeight st it cur lastY hb hcur hgt, if_neg hb]
          simp [stWords, hcur, startParagraph]
        · rw [groupStep_append viewportHeight st it cur lastY hb hcur hgt, if_neg hb]
          simp [stWords, hcur, appendParagraph]

theorem groupFold_words (viewportHeight : ℚ) :
    ∀ (items : List TextItem) (st : GroupState),
      stWords (items.foldl (groupStep viewportHeight) st)
        = stWords st ++
            (items.filter (fun it => ¬ trimString it.str = "")).map
              (wordOfItem viewportHeight) := by
  intro items
  induction items with
  | nil => intro st; simp
  | cons it rest ih =>
      intro st
      rw [List.foldl_cons, ih, stWords_step, List.filter_cons]
      by_cases hb : trimString it.str = ""
      · simp [hb]
      · simp [hb]

theorem startParagraph_box (viewportHeight : ℚ) (it : TextItem) :
    BoxFold (startParagraph viewportHeight it) :=
  ⟨wordOfItem viewportHeight it, [], rfl, rfl, rfl, rfl, rfl⟩

theorem appendParagraph_box (viewportHeight : ℚ) (cur : Paragraph) (it : TextItem)
    (h : BoxFold cur) : BoxFold (appendParagraph viewportHeight cur it) := by
  obtain ⟨w0, ws, hw, hx, hy0, hwid, hht⟩ := h
  refine ⟨w0, ws ++ [wordOfItem viewportHeight it], ?_, ?_, ?_, ?_, ?_⟩
  · show cur.words ++ [wordOfItem viewportHeight it] = _
    rw [hw]
    rfl
  · exact hx
  · exact hy0
  · show max cur.width _ = _
    have hax : (appendParagraph viewportHeight cur it).x = cur.x := rfl
    rw [List.map_append, List.foldl_append]
    simp only [hax, List.map_cons, List.map_nil, List.foldl_cons, List.foldl_nil]
    rw [← hwid]
  · show max cur.height _ = _
    rw [List.map_append, List.foldl_append]
    simp only [List.map_cons, List.map_nil, List.foldl_cons, List.foldl_nil]
    rw [← hht]

theorem groupStep_box (viewportHeight : ℚ) (st : GroupState) (it : TextItem)
    (h : StateBox st) : StateBox (groupStep viewportHeight st it) := by
  by_cases hb : trimString it.str = ""
  · rw [groupStep_blank viewportHeight st it hb]
    exact h
  · obtain ⟨hpars, hcur⟩ := h
    cases hc : st.current with
    | none =>
        rw [groupStep_start viewportHeight st it hb hc]
        refine ⟨hpars, ?_⟩
        intro cur y hy
        have h1 : startParagraph viewportHeight it = cur :=
          congrArg Prod.fst (Option.some.inj hy)
        exact h1 ▸ startParagraph_box viewportHeight it
    | some e =>
        obtain ⟨curp, lastY⟩ := e
        have hcurp : BoxFold curp := hcur curp lastY hc
        by_cases hgt : |(wordOfItem viewportHeight it).y - lastY| > lineThreshold
        · rw [groupStep_push viewportHeight st it curp lastY hb hc hgt]
          refine ⟨?_, ?_⟩
          · intro p hp
            rcases List.mem_append.mp hp with hp | hp
            · exact hpars p hp
            · rw [List.mem_singleton.mp hp]
              exact hcurp
          · intro cur y hy
            have h1 : startParagraph viewportHeight it = cur :=
              congrArg Prod.fst (Option.some.inj hy)
            exact h1 ▸ startParagraph_box viewportHeight it
        · rw [groupStep_append viewportHeight st it curp lastY hb hc hgt]
          refine ⟨hpars, ?_⟩
          intro cur y hy
          have h1 : appendParagraph viewportHeight curp it = cur :=
            congrArg Prod.fst (Option.some.inj hy)
          exact h1 ▸ appendParagraph_box viewportHeight curp it hcurp

theorem groupFold_box (viewportHeight : ℚ) :
    ∀ (items : List TextItem) (st : GroupState),
      StateBox st → StateBox (items.foldl (groupStep viewportHeight) st) := by
  intro items
  induction items with
  | nil => intro st h; exact h
  | cons it rest ih =>
      intro st h
      rw [List.foldl_cons]
      exact ih _ (groupStep_box viewportHeight st it h)

/-- **C8** (amended): the paragraphs' word lists partition the non-blank
input runs in order (every word belongs to exactly one paragraph), and a
paragraph's box follows the fold the code performs — `x`/`y` anchored at
its *first* word, `width` the running `max` of `w.x + w.width - x`,
`height` the running `max` of word heights.  This box is not in general
the union of the word boxes (see `paragraphBoxCounterexample`). -/
theorem paragraphPartitionAndBox (items : List TextItem) (viewportHeight : ℚ) :
    ((groupIntoParagraphs items viewportHeight).flatMap (fun p => p.words)
      = (items.filter (fun it => ¬ trimString it.str = "")).map
          (wordOfItem viewportHeight)) ∧
    (∀ para ∈ groupIntoParagraphs items viewportHeight, BoxFold para) := by
  have hwords := groupFold_words viewportHeight items
    { paragraphs := [], current := none }
  have hbox := groupFold_box viewportHeight items
    { paragraphs := [], current := none }
    ⟨by intro p hp; simp at hp, by intro cur y hy; simp at hy⟩
  set st := items.foldl (groupStep viewportHeight)
    { paragraphs := [], current := none } with hst
  constructor
  · show (finishGroup st).flatMap (fun p => p.words) = _
    have hfin : (finishGroup st).flatMap (fun p => p.words) = stWords st := by
      unfold finishGroup stWords
      cases st.current with
      | none => simp
      | some e => simp
    rw [hfin, hwords]
    simp [stWords]
  · intro para hpara
    obtain ⟨hpars, hcur⟩ := hbox
    have hpara' : para ∈ finishGroup st := hpara
    unfold finishGroup at hpara'
    revert hpara'
    cases hc : st.current with
    | none =>
        intro hpara'
        exact hpars para hpara'
    | some e =>
        intro hpara'
        rcases List.mem_append.mp hpara' with hmem | hmem
        · exact hpars para hmem
        · rw [List.mem_singleton.mp hmem]
          exact hcur e.1 e.2 (by rw [hc])

/-- Witness for `paragraphPartitionAndBox` at the concrete two-run
input. -/
theorem paragraphPartitionAndBoxWitness :
    (groupIntoParagraphs [itemRight, itemLeft] 200).flatMap (fun p => p.words)
      = ([itemRight, itemLeft].filter (fun it => ¬ trimString it.str = "")).map
          (wordOfItem 200) :=
  (paragraphPartitionAndBox [itemRight, itemLeft] 200).1

/-- **C3** (amended): when the replacement document's page count is not
exactly 1, `replacePage` does reject with the validation error before the
page's *database record* is touched (the pages and catalogs tables are
unchanged) — but not before asset mutation: at the moment the 400 is
returned the old page's files (including its text index) have already been
unlinked and its clickable areas deleted. -/
theorem replaceRejectionState (db : Db) (pid : Nat) (doc : List SourcePage)
    (textOk : Nat → Bool) (page : PageRow)
    (hfind : findPage db pid = some page) (hlen : doc.length ≠ 1) :
    (replacePage db pid doc textOk).1 = .invalidInput ∧
    (replacePage db pid doc textOk).2.pages = db.pages ∧
    (replacePage db pid doc textOk).2.catalogs = db.catalogs ∧
    (replacePage db pid doc textOk).2.areas
      = db.areas.filter (fun a => ¬ a.pageId = pid) ∧
    (replacePage db pid doc textOk).2.files = (unlinkPageFiles db page).files := by
  match doc, hlen with
  | [], _ =>
      simp [replacePage, hfind, deleteAreas_pages, deleteAreas_catalogs,
        deleteAreas_areas, deleteAreas_files, unlinkPageFiles_pages,
        unlinkPageFiles_catalogs, unlinkPageFiles_areas]
  | p :: q :: rest, _ =>
      simp [replacePage, hfind, deleteAreas_pages, deleteAreas_catalogs,
        deleteAreas_areas, deleteAreas_files, unlinkPageFiles_pages,
        unlinkPageFiles_catalogs, unlinkPageFiles_areas]
  | [p], h => exact absurd rfl h

/-- Witness for `replaceRejectionState` on the concrete two-page state. -/
theorem replaceRejectionStateWitness :
    (replacePage exDb 1 [⟨100, 100⟩, ⟨100, 100⟩] (fun _ => true)).1
        = .invalidInput ∧
    (replacePage exDb 1 [⟨100, 100⟩, ⟨100, 100⟩] (fun _ => true)).2.pages
        = exDb.pages ∧
    (replacePage exDb 1 [⟨100, 100⟩, ⟨100, 100⟩] (fun _ => true)).2.catalogs
        = exDb.catalogs ∧
    (replacePage exDb 1 [⟨100, 100⟩, ⟨100, 100⟩] (fun _ => true)).2.areas
        = exDb.areas.filter (fun a => ¬ a.pageId = 1) ∧
    (replacePage exDb 1 [⟨100, 100⟩, ⟨100, 100⟩] (fun _ => true)).2.files
        = (unlinkPageFiles exDb (exDb.pages.get ⟨0, by decide⟩)).files :=
  replaceRejectionState exDb 1 [⟨100, 100⟩, ⟨100, 100⟩] (fun _ => true)
    (exDb.pages.get ⟨0, by decide⟩) (by decide) (by decide)

/-- **C3** counterexample to the claim as stated: replacing page 1 of the
two-page catalog with a two-page document is rejected with the validation
error, yet the page's files and its clickable areas are *not* unchanged —
both have already been deleted when the error is returned. -/
theorem replaceRejectionCounterexample :
    (replacePage exDb 1 [⟨100, 100⟩, ⟨100, 100⟩] (fun _ => true)).1
        = .invalidInput ∧
    ¬ ((replacePage exDb 1 [⟨100, 100⟩, ⟨100, 100⟩] (fun _ => true)).2.areas
        = exDb.areas) ∧
    ¬ ((replacePage exDb 1 [⟨100, 100⟩, ⟨100, 100⟩] (fun _ => true)).2.files
        = exDb.files) := by
  decide

theorem reorderFold_frame (c : Nat) :
    ∀ (orders : List (Nat × Nat)) (pages : List PageRow),
      ∃ F : PageRow → PageRow,
        orders.foldl (reorderStep c) pages = pages.map F ∧
        (∀ p, frameFields (F p) = frameFields p) ∧
        (∀ p, (¬ p.catalogId = c) ∨ (¬ p.id ∈ orders.map Prod.fst) → F p = p) := by
  intro orders
  induction orders with
  | nil =>
      intro pages
      exact ⟨id, by simp, fun p => rfl, fun p _ => rfl⟩
  | cons u rest ih =>
      intro pages
      obtain ⟨F, hfold, hframe, hskip⟩ := ih (reorderStep c pages u)
      refine ⟨fun p => F (if p.id = u.1 ∧ p.catalogId = c
        then { p with pageNumber := u.2 } else p), ?_, ?_, ?_⟩
      · rw [List.foldl_cons, hfold, reorderStep, List.map_map]
        rfl
      · intro p
        by_cases hp : p.id = u.1 ∧ p.catalogId = c
        · simp only [if_pos hp, hframe]
          rfl
        · simp only [if_neg hp, hframe]
      · intro p hp
        have hnot : ¬ (p.id = u.1 ∧ p.catalogId = c) := by
          rcases hp with hcat | hmem
          · intro hand
            exact hcat hand.2
          · intro hand
            exact hmem (by simp [hand.1])
        simp only [if_neg hnot]
        apply hskip
        rcases hp with hcat | hmem
        · exact Or.inl hcat
        · refine Or.inr (fun hmem' => hmem ?_)
          simp only [List.map_cons, List.mem_cons]
          exact Or.inr hmem'

/-- **C10**: a reorder request only ever modifies the `page_number` column
of pages that are both named in the request and belong to the target
catalog: the catalogs table (including `total_pages`), the clickable
areas, the files, the number and order of page rows, and every non-number
field of every page row are unchanged, and any page either not named or
belonging to another catalog is untouched entirely. -/
theorem reorderFrameEffect (db : Db) (c : Nat) (orders : List (Nat × Nat)) :
    (reorderPages db c orders).catalogs = db.catalogs ∧
    (reorderPages db c orders).areas = db.areas ∧
    (reorderPages db c orders).files = db.files ∧
    (reorderPages db c orders).pages.length = db.pages.length ∧
    (∀ i : Nat, ((reorderPages db c orders).pages[i]?).map frameFields
        = (db.pages[i]?).map frameFields) ∧
    (∀ i : Nat, ∀ p : PageRow, db.pages[i]? = some p →
      (¬ p.catalogId = c) ∨ (¬ p.id ∈ orders.map Prod.fst) →
      (reorderPages db c orders).pages[i]? = some p) := by
  unfold reorderPages
  by_cases hval : orders.all (fun o => 1 ≤ o.2)
  · rw [if_pos hval]
    cases hcat : findCatalog db c with
    | none => exact ⟨rfl, rfl, rfl, rfl, fun i => rfl, fun i p hp _ => hp⟩
    | some row =>
        obtain ⟨F, hfold, hframe, hskip⟩ := reorderFold_frame c orders db.pages
        refine ⟨rfl, rfl, rfl, ?_, ?_, ?_⟩
        · simp [hfold]
        · intro i
          simp only [hfold, List.getElem?_map]
          cases db.pages[i]? with
          | none => rfl
          | some p => simp [hframe p]
        · intro i p hp hcond
          simp [hfold, List.getElem?_map, hp, hskip p hcond]
  · rw [if_neg hval]
    exact ⟨rfl, rfl, rfl, rfl, fun i => rfl, fun i p hp _ => hp⟩

/-- Witness for `reorderFrameEffect`: concrete instantiation on the
two-page catalog with a request naming page 1 only. -/
theorem reorderFrameEffectWitness :
    ((reorderPages exDb 1 [(1, 2)]).pages[0]?).map frameFields
        = (exDb.pages[0]?).map frameFields ∧
    (reorderPages exDb 1 [(1, 2)]).pages[1]? = exDb.pages[1]? ∧
    (reorderPages exDb 1 [(1, 2)]).catalogs = exDb.catalogs :=
  ⟨(reorderFrameEffect exDb 1 [(1, 2)]).2.2.2.2.1 0,
   (reorderFrameEffect exDb 1 [(1, 2)]).2.2.2.2.2 1
      (exDb.pages.get ⟨1, by decide⟩) (by decide) (Or.inr (by decide)),
   (reorderFrameEffect exDb 1 [(1, 2)]).1⟩

/-- **C2** counterexample to the claim as stated: processing a fresh
catalog of two single pages with text extraction failing on page 1 leaves
zero persisted pages (the failing page is *not* persisted with an empty
index), stops before page 2, and ends the catalog in status `error` — the
source logs the text-extraction error and rethrows it, so it is fatal. -/
theorem textFailureCounterexample :
    (runCatalog exFreshDb 1 [⟨100, 100⟩, ⟨100, 100⟩] (fun n => ¬ n = 1)).catalogs
      = [{ id := 1, totalPages := 2, status := .error,
           errorMessage := some "Text extraction error" }] ∧
    (runCatalog exFreshDb 1 [⟨100, 100⟩, ⟨100, 100⟩] (fun n => ¬ n = 1)).pages
      = [] := by
  constructor
  · decide
  · decide

theorem lookup_cons_self {β : Type} (a : Nat) (v : β) (l : List (Nat × β)) :
    List.lookup a ((a, v) :: l) = some v := by
  simp [List.lookup]

theorem lookup_cons_ne {β : Type} (a b : Nat) (v : β) (l : List (Nat × β))
    (h : ¬ a = b) : List.lookup a ((b, v) :: l) = List.lookup a l := by
  simp [List.lookup, beq_false_of_ne h]

theorem lookup_eq_none {β : Type} (a : Nat) (l : List (Nat × β))
    (h : ¬ a ∈ l.map Prod.fst) : List.lookup a l = none := by
  induction l with
  | nil => rfl
  | cons u t ih =>
      have ha : ¬ a = u.1 := fun he => h (by simp [he])
      obtain ⟨k, v⟩ := u
      rw [lookup_cons_ne a k v t ha]
      exact ih (fun hm => h (List.mem_cons_of_mem _ hm))

theorem lookup_mem {β : Type} (a : Nat) (b : β) (l : List (Nat × β))
    (h : List.lookup a l = some b) : (a, b) ∈ l := by
  induction l with
  | nil => cases h
  | cons u t ih =>
      obtain ⟨k, v⟩ := u
      by_cases he : a = k
      · subst he
        rw [lookup_cons_self] at h
        cases h
        exact List.mem_cons_self _ _
      · rw [lookup_cons_ne a k v t he] at h
        exact List.mem_cons_of_mem _ (ih h)

theorem le_foldr_max (l : List Nat) (a : Nat) (ha : a ∈ l) :
    a ≤ l.foldr max 0 := by
  induction l with
  | nil => cases ha
  | cons b t ih =>
      rcases List.mem_cons.mp ha with rfl | h
      · exact le_max_left _ _
      · exact le_trans (ih h) (le_max_right _ _)

theorem nextPageId_fresh (db : Db) :
    ¬ nextPageId db ∈ db.pages.map (fun p => p.id) := by
  intro hmem
  have h := le_foldr_max (db.pages.map (fun p => p.id)) (nextPageId db) hmem
  unfold nextPageId at h
  omega

theorem nodup_append_row (pages : List PageRow) (row : PageRow)
    (h : (pages.map (fun p => p.id)).Nodup)
    (hf : ¬ row.id ∈ pages.map (fun p => p.id)) :
    ((pages ++ [row]).map (fun p => p.id)).Nodup := by
  rw [List.map_append, List.nodup_append]
  refine ⟨h, List.nodup_singleton _, ?_⟩
  intro a ha hb
  simp only [List.map_cons, List.map_nil, List.mem_singleton] at hb
  exact hf (hb ▸ ha)

theorem find_by_id (l : List PageRow) (p : PageRow)
    (h : (l.map (fun q => q.id)).Nodup) (hp : p ∈ l) :
    l.find? (fun q => q.id = p.id) = some p := by
  induction l with
  | nil => cases hp
  | cons r t ih =>
      rw [List.map_cons, List.nodup_cons] at h
      rcases List.mem_cons.mp hp with rfl | hp'
      · exact List.find?_cons_of_pos t (by simp)
      · have hne : ¬ r.id = p.id := by
          intro he
          exact h.1 (he ▸ List.mem_map_of_mem (fun q => q.id) hp')
        rw [List.find?_cons_of_neg t (by simpa using hne)]
        exact ih h.2 hp'

theorem perm_filter_out (l : List PageRow) (p : PageRow)
    (h : (l.map (fun q => q.id)).Nodup) (hp : p ∈ l) :
    l.Perm (p :: l.filter (fun q => ¬ q.id = p.id)) := by
  induction l with
  | nil => cases hp
  | cons r t ih =>
      rw [List.map_cons, List.nodup_cons] at h
      rcases List.mem_cons.mp hp with rfl | hp'
      · have hfeq : t.filter (fun q => ¬ q.id = p.id) = t := by
          rw [List.filter_eq_self]
          intro q hq
          simp only [decide_eq_true_eq]
          intro he
          exact h.1 (he ▸ List.mem_map_of_mem (fun x => x.id) hq)
        rw [List.filter_cons, if_neg (by simp), hfeq]
      · have hne : ¬ r.id = p.id := by
          intro he
          exact h.1 (he ▸ List.mem_map_of_mem (fun q => q.id) hp')
        rw [List.filter_cons, if_pos (by simpa using hne)]
        exact List.Perm.trans (List.Perm.cons r (ih h.2 hp')) (List.Perm.swap p r _)

theorem filter_map_pres (F : PageRow → PageRow)
    (hF : ∀ p, (F p).catalogId = p.catalogId) (l : List PageRow) (c : Nat) :
    (l.map F).filter (fun p => p.catalogId = c)
      = (l.filter (fun p => p.catalogId = c)).map F := by
  induction l with
  | nil => rfl
  | cons p t ih =>
      simp only [List.map_cons, List.filter_cons]
      by_cases hc : p.catalogId = c
      · rw [if_pos (by simp [hF p, hc]), if_pos (by simp [hc]), List.map_cons, ih]
      · rw [if_neg (by simp [hF p, hc]), if_neg (by simp [hc]), ih]

theorem map_ids_of_pres (F : PageRow → PageRow) (hF : ∀ p, (F p).id = p.id)
    (l : List PageRow) :
    (l.map F).map (fun p => p.id) = l.map (fun p => p.id) := by
  rw [List.map_map]
  exact List.map_congr_left (fun p _ => hF p)

theorem takeWhile_of_all {α : Type} (p : α → Bool) (l : List α)
    (h : l.all p = true) : l.takeWhile p = l := by
  induction l with
  | nil => rfl
  | cons a t ih =>
      rw [List.all_cons, Bool.and_eq_true] at h
      rw [List.takeWhile_cons, if_pos h.1, ih h.2]

theorem takeWhile_append_all {α : Type} (p : α → Bool) (l1 l2 : List α)
    (h : l1.all p = true) :
    (l1 ++ l2).takeWhile p = l1 ++ l2.takeWhile p := by
  rw [List.takeWhile_append, takeWhile_of_all p l1 h, if_pos rfl]

theorem takeWhile_append_stop {α : Type} (p : α → Bool) (l1 l2 : List α)
    (h : l1.all p = false) :
    (l1 ++ l2).takeWhile p = l1.takeWhile p := by
  rw [List.takeWhile_append]
  have hlt : (l1.takeWhile p).length ≠ l1.length := by
    intro hlen
    have heq : l1.takeWhile p = l1 :=
      (List.takeWhile_prefix p).eq_of_length hlen
    have : l1.all p = true := by
      rw [List.all_eq_true]
      intro a ha
      exact List.mem_takeWhile_imp (heq ▸ ha)
    rw [this] at h
    cases h
  rw [if_neg hlt]

theorem map_eq_self_of_id {α : Type} {l : List α} {f : α → α}
    (h : ∀ p ∈ l, f p = p) : l.map f = l := by
  induction l with
  | nil => rfl
  | cons p t ih =>
      rw [List.map_cons, h p (List.mem_cons_self p t),
        ih (fun q hq => h q (List.mem_cons_of_mem p hq))]

theorem lookupFix_id (ups : List (Nat × Nat)) (p : PageRow) :
    (lookupFix ups p).id = p.id := by
  unfold lookupFix
  cases ups.lookup p.id <;> rfl

theorem lookupFix_catalog (ups : List (Nat × Nat)) (p : PageRow) :
    (lookupFix ups p).catalogId = p.catalogId := by
  unfold lookupFix
  cases ups.lookup p.id <;> rfl

theorem applyIdUpdates_eq_map :
    ∀ (ups : List (Nat × Nat)) (pages : List PageRow),
      (ups.map Prod.fst).Nodup →
      applyIdUpdates pages ups = pages.map (lookupFix ups) := by
  intro ups
  induction ups with
  | nil =>
      intro pages _
      show pages = pages.map (lookupFix [])
      symm
      exact map_eq_self_of_id (fun p _ => rfl)
  | cons u rest ih =>
      intro pages h
      rw [List.map_cons, List.nodup_cons] at h
      show applyIdUpdates (updateNumberById pages u.1 u.2) rest = _
      rw [ih _ h.2]
      unfold updateNumberById
      rw [List.map_map]
      apply List.map_congr_left
      intro p _
      show lookupFix rest (if p.id = u.1 then { p with pageNumber := u.2 } else p)
          = lookupFix (u :: rest) p
      obtain ⟨k, v⟩ := u
      by_cases he : p.id = k
      · rw [if_pos he]
        unfold lookupFix
        rw [show ({ p with pageNumber := v } : PageRow).id = p.id from rfl]
        rw [he, lookup_cons_self, lookup_eq_none k rest (by simpa using h.1)]
      · rw [if_neg he]
        unfold lookupFix
        rw [lookup_cons_ne p.id k v rest he]

theorem reorderFold_eq_map (c : Nat) :
    ∀ (orders : List (Nat × Nat)) (pages : List PageRow),
      (orders.map Prod.fst).Nodup →
      orders.foldl (reorderStep c) pages = pages.map (reorderFix c orders) := by
  intro orders
  induction orders with
  | nil =>
      intro pages _
      rw [List.foldl_nil]
      symm
      apply map_eq_self_of_id
      intro p _
      unfold reorderFix
      split
      · rfl
      · rfl
  | cons u rest ih =>
      intro pages h
      rw [List.map_cons, List.nodup_cons] at h
      rw [List.foldl_cons]
      rw [ih _ h.2]
      unfold reorderStep
      rw [List.map_map]
      apply List.map_congr_left
      intro p _
      show reorderFix c rest
          (if p.id = u.1 ∧ p.catalogId = c then { p with pageNumber := u.2 } else p)
          = reorderFix c (u :: rest) p
      obtain ⟨k, v⟩ := u
      by_cases hcat : p.catalogId = c
      · by_cases he : p.id = k
        · rw [if_pos ⟨he, hcat⟩]
          unfold reorderFix
          rw [if_pos (show ({ p with pageNumber := v } : PageRow).catalogId = c from hcat),
            if_pos hcat]
          unfold lookupFix
          rw [show ({ p with pageNumber := v } : PageRow).id = p.id from rfl]
          rw [he, lookup_cons_self, lookup_eq_none k rest (by simpa using h.1)]
        · rw [if_neg (fun hand => he hand.1)]
          unfold reorderFix
          rw [if_pos hcat, if_pos hcat]
          unfold lookupFix
          rw [lookup_cons_ne p.id k v rest he]
      · rw [if_neg (fun hand => hcat hand.2)]
        unfold reorderFix
        rw [if_neg hcat, if_neg hcat]

theorem renumberFix_skip (k : Nat) (rem : List PageRow) (p : PageRow)
    (h : ¬ p.id ∈ rem.map (fun r => r.id)) : renumberFix k rem p = p := by
  induction rem generalizing k with
  | nil => rfl
  | cons r rs ih =>
      have hne : ¬ p.id = r.id := fun he => h (by simp [he])
      unfold renumberFix
      rw [if_neg hne]
      exact ih (k + 1) (fun hm => h (List.mem_cons_of_mem _ hm))

theorem renumberFix_id (rem : List PageRow) (k : Nat) (p : PageRow) :
    (renumberFix k rem p).id = p.id := by
  induction rem generalizing k with
  | nil => rfl
  | cons r rs ih =>
      unfold renumberFix
      by_cases he : p.id = r.id
      · rw [if_pos he]
      · rw [if_neg he]
        exact ih (k + 1)

theorem renumberFix_catalog (rem : List PageRow) (k : Nat) (p : PageRow) :
    (renumberFix k rem p).catalogId = p.catalogId := by
  induction rem generalizing k with
  | nil => rfl
  | cons r rs ih =>
      unfold renumberFix
      by_cases he : p.id = r.id
      · rw [if_pos he]
      · rw [if_neg he]
        exact ih (k + 1)

theorem renumberLoop_eq_map :
    ∀ (rem : List PageRow) (pages : List PageRow) (k : Nat),
      (pages.map (fun p => p.id)).Nodup →
      (rem.map (fun p => p.id)).Nodup →
      (∀ r ∈ rem, r ∈ pages) →
      renumberLoop pages k rem = pages.map (renumberFix k rem) := by
  intro rem
  induction rem with
  | nil =>
      intro pages k _ _ _
      show pages = pages.map (renumberFix k [])
      symm
      exact map_eq_self_of_id (fun p _ => rfl)
  | cons r rs ih =>
      intro pages k hpag hrem hsub
      rw [List.map_cons, List.nodup_cons] at hrem
      have hstep : (if r.pageNumber = k + 1 then pages
            else updateNumberById pages r.id (k + 1))
          = pages.map (fun p =>
              if p.id = r.id then { p with pageNumber := k + 1 } else p) := by
        by_cases hn : r.pageNumber = k + 1
        · rw [if_pos hn]
          symm
          apply map_eq_self_of_id
          intro p hp
          by_cases he : p.id = r.id
          · rw [if_pos he]
            have hpr : p = r :=
              List.inj_on_of_nodup_map hpag hp (hsub r (List.mem_cons_self r rs)) he
            subst hpr
            rw [← hn]
          · rw [if_neg he]
        · rw [if_neg hn]
          rfl
      show renumberLoop (if r.pageNumber = k + 1 then pages
            else updateNumberById pages r.id (k + 1)) (k + 1) rs = _
      rw [hstep]
      have hids2 : ((pages.map (fun p =>
          if p.id = r.id then { p with pageNumber := k + 1 } else p)).map
            (fun p => p.id)).Nodup := by
        rw [map_ids_of_pres]
        · exact hpag
        · intro p
          by_cases he : p.id = r.id
          · rw [if_pos he]
          · rw [if_neg he]
      have hsub2 : ∀ q ∈ rs, q ∈ pages.map (fun p =>
          if p.id = r.id then { p with pageNumber := k + 1 } else p) := by
        intro q hq
        have hqp : q ∈ pages := hsub q (List.mem_cons_of_mem r hq)
        have hqne : ¬ q.id = r.id :=
          fun he => hrem.1 (he ▸ List.mem_map_of_mem (fun p => p.id) hq)
        have hfix : (fun p => if p.id = r.id then { p with pageNumber := k + 1 } else p) q
            = q := if_neg hqne
        exact hfix ▸ List.mem_map_of_mem _ hqp
      rw [ih _ (k + 1) hids2 hrem.2 hsub2]
      rw [List.map_map]
      apply List.map_congr_left
      intro p _
      show renumberFix (k + 1) rs (if p.id = r.id then { p with pageNumber := k + 1 } else p)
          = renumberFix k (r :: rs) p
      by_cases he : p.id = r.id
      · rw [if_pos he]
        rw [renumberFix_skip (k + 1) rs _ (by
          rw [show ({ p with pageNumber := k + 1 } : PageRow).id = p.id from rfl, he]
          simpa using hrem.1)]
        simp only [renumberFix]
        rw [if_pos he]
      · rw [if_neg he]
        simp only [renumberFix]
        rw [if_neg he]

theorem renumberFix_nums :
    ∀ (rem : List PageRow) (k : Nat),
      (rem.map (fun p => p.id)).Nodup →
      (rem.map (renumberFix k rem)).map (fun p => p.pageNumber)
        = List.range' (k + 1) rem.length := by
  intro rem
  induction rem with
  | nil => intro k _; rfl
  | cons r rs ih =>
      intro k h
      rw [List.map_cons, List.nodup_cons] at h
      rw [List.map_cons, List.map_cons]
      have hhead : renumberFix k (r :: rs) r = { r with pageNumber := k + 1 } := by
        unfold renumberFix
        rw [if_pos rfl]
      have htail : rs.map (renumberFix k (r :: rs)) = rs.map (renumberFix (k + 1) rs) := by
        apply List.map_congr_left
        intro q hq
        have hne : ¬ q.id = r.id :=
          fun he => h.1 (he ▸ List.mem_map_of_mem (fun p => p.id) hq)
        simp only [renumberFix]
        rw [if_neg hne]
      rw [hhead, htail, ih (k + 1) h.2, List.length_cons, List.range'_succ]

theorem analyzePages_length (doc : List SourcePage) :
    (analyzePages doc).length = doc.length := by
  simp [analyzePages]

theorem zip_fst_analyze (doc : List SourcePage) :
    ((analyzePages doc).zip doc).map Prod.fst = analyzePages doc :=
  List.map_fst_zip _ _ (by rw [analyzePages_length])

theorem totalOutput_cons (pc : PageClassification) (rest : List PageClassification) :
    totalOutput (pc :: rest) = pageSpan pc + totalOutput rest := by
  simp [totalOutput]

theorem range'_split_two (s T : Nat) :
    List.range' s (2 + T) = s :: (s + 1) :: List.range' (s + 2) T := by
  have h2 : 2 + T = (1 + T) + 1 := by omega
  rw [h2, List.range'_succ]
  have h1 : 1 + T = T + 1 := by omega
  rw [h1, List.range'_succ]

theorem range'_split_one (s T : Nat) :
    List.range' s (1 + T) = s :: List.range' (s + 1) T := by
  have h1 : 1 + T = T + 1 := by omega
  rw [h1, List.range'_succ]

theorem processOne_spec (c : Nat) (textOk : Nat → Bool) (db : Db) (w h : ℚ) (n : Nat) :
    ((processOne c textOk db w h n).1.catalogs = db.catalogs) ∧
    ((processOne c textOk db w h n).1.areas = db.areas) ∧
    (textOk n = true →
      (processOne c textOk db w h n).1.pages = db.pages ++ [newRow c db n w h] ∧
      (processOne c textOk db w h n).2 = true) ∧
    (textOk n = false →
      (processOne c textOk db w h n).1.pages = db.pages ∧
      (processOne c textOk db w h n).2 = false) := by
  unfold processOne
  cases hok : textOk n with
  | true =>
      simp only [if_pos rfl]
      refine ⟨?_, ?_, ?_, ?_⟩
      · show (addFile _ _).catalogs = db.catalogs
        rw [addFile_catalogs, addFile_catalogs, addFile_catalogs, addFile_catalogs]
      · show (addFile _ _).areas = db.areas
        rw [addFile_areas, addFile_areas, addFile_areas, addFile_areas]
      · intro _
        refine ⟨?_, rfl⟩
        show (addFile _ _).pages ++ [newRow c db n w h] = db.pages ++ [newRow c db n w h]
        rw [addFile_pages, addFile_pages, addFile_pages, addFile_pages]
      · intro hfalse
        exact absurd hfalse (by simp)
  | false =>
      rw [if_neg (show ¬ ((false : Bool) = true) from fun he => nomatch he)]
      refine ⟨?_, ?_, ?_, ?_⟩
      · rw [addFile_catalogs, addFile_catalogs, addFile_catalogs]
      · rw [addFile_areas, addFile_areas, addFile_areas]
      · intro htrue
        exact absurd htrue (by simp)
      · intro _
        refine ⟨?_, rfl⟩
        rw [addFile_pages, addFile_pages, addFile_pages]

theorem newRow_fresh (c : Nat) (db : Db) (n : Nat) (w h : ℚ) :
    ¬ (newRow c db n w h).id ∈ db.pages.map (fun p => p.id) :=
  nextPageId_fresh db

theorem processSource_spec (c : Nat) (textOk : Nat → Bool) (db : Db)
    (pc : PageClassification) (src : SourcePage) (n : Nat) :
    ∃ rows : List PageRow,
      (processSource c textOk db pc src n).1.pages = db.pages ++ rows ∧
      rows.map (fun p => p.pageNumber)
        = (List.range' n (pageSpan pc)).takeWhile textOk ∧
      (∀ r ∈ rows, r.catalogId = c) ∧
      ((processSource c textOk db pc src n).2
        = (List.range' n (pageSpan pc)).all textOk) ∧
      ((processSource c textOk db pc src n).1.catalogs = db.catalogs) ∧
      ((processSource c textOk db pc src n).1.areas = db.areas) ∧
      ((db.pages.map (fun p => p.id)).Nodup →
        ((db.pages ++ rows).map (fun p => p.id)).Nodup) := by
  unfold processSource
  by_cases hd : pc.isDoublePage
  · rw [if_pos hd]
    simp only [processDoublePage]
    have hspan : pageSpan pc = 2 := by unfold pageSpan; rw [if_pos hd]
    rw [hspan, range'_split_two n 0]
    obtain ⟨hc1, ha1, hok1, hfail1⟩ :=
      processOne_spec c textOk db (src.width / 2) src.height n
    cases hok : textOk n with
    | false =>
        obtain ⟨hp1, hf1⟩ := hfail1 hok
        rw [hf1]
        rw [if_neg (show ¬ ((false : Bool) = true) from fun he => nomatch he)]
        refine ⟨[], ?_, ?_, ?_, ?_, ?_, ?_, ?_⟩
        · simpa using hp1
        · rw [List.takeWhile_cons, if_neg (by simp [hok])]
          rfl
        · intro r hr
          cases hr
        · rw [hf1, List.all_cons, hok]
          rfl
        · exact hc1
        · exact ha1
        · intro hn
          simpa using hn
    | true =>
        obtain ⟨hp1, hf1⟩ := hok1 hok
        rw [hf1]
        rw [if_pos rfl]
        obtain ⟨hc2, ha2, hok2, hfail2⟩ :=
          processOne_spec c textOk (processOne c textOk db (src.width / 2) src.height n).1
            (src.width / 2) src.height (n + 1)
        cases hok' : textOk (n + 1) with
        | false =>
            obtain ⟨hp2, hf2⟩ := hfail2 hok'
            refine ⟨[newRow c db n (src.width / 2) src.height], ?_, ?_, ?_, ?_, ?_, ?_, ?_⟩
            · rw [hp2, hp1]
            · rw [List.takeWhile_cons, if_pos (by rw [hok]),
                List.takeWhile_cons, if_neg (by simp [hok'])]
              rfl
            · intro r hr
              rw [List.mem_singleton.mp hr]
              rfl
            · rw [hf2, List.all_cons, List.all_cons, hok, hok']
              rfl
            · rw [hc2, hc1]
            · rw [ha2, ha1]
            · intro hn
              exact nodup_append_row db.pages _ hn (newRow_fresh c db n _ _)
        | true =>
            obtain ⟨hp2, hf2⟩ := hok2 hok'
            refine ⟨[newRow c db n (src.width / 2) src.height,
              newRow c (processOne c textOk db (src.width / 2) src.height n).1 (n + 1)
                (src.width / 2) src.height], ?_, ?_, ?_, ?_, ?_, ?_, ?_⟩
            · rw [hp2, hp1, List.append_assoc]
              rfl
            · rw [List.takeWhile_cons, if_pos (by rw [hok]),
                List.takeWhile_cons, if_pos (by rw [hok'])]
              rfl
            · intro r hr
              rcases List.mem_cons.mp hr with rfl | hr
              · rfl
              · rw [List.mem_singleton.mp hr]
                rfl
            · rw [hf2, List.all_cons, List.all_cons, hok, hok']
              rfl
            · rw [hc2, hc1]
            · rw [ha2, ha1]
            · intro hn
              have h1 : ((db.pages ++ [newRow c db n (src.width / 2) src.height]).map
                  (fun p => p.id)).Nodup :=
                nodup_append_row db.pages _ hn (newRow_fresh c db n _ _)
              have h2 : ¬ (newRow c (processOne c textOk db (src.width / 2) src.height n).1
                  (n + 1) (src.width / 2) src.height).id
                  ∈ (db.pages ++ [newRow c db n (src.width / 2) src.height]).map
                    (fun p => p.id) := by
                have hfr := newRow_fresh c
                  (processOne c textOk db (src.width / 2) src.height n).1 (n + 1)
                  (src.width / 2) src.height
                rw [hp1] at hfr
                exact hfr
              have h3 := nodup_append_row _ _ h1 h2
              rw [List.append_assoc] at h3
              exact h3
  · rw [if_neg hd]
    have hspan : pageSpan pc = 1 := by unfold pageSpan; rw [if_neg hd]
    rw [hspan, List.range'_one]
    obtain ⟨hc1, ha1, hok1, hfail1⟩ := processOne_spec c textOk db src.width src.height n
    cases hok : textOk n with
    | false =>
        obtain ⟨hp1, hf1⟩ := hfail1 hok
        refine ⟨[], ?_, ?_, ?_, ?_, ?_, ?_, ?_⟩
        · simpa using hp1
        · rw [List.takeWhile_cons, if_neg (by simp [hok])]
          rfl
        · intro r hr
          cases hr
        · rw [hf1, List.all_cons, hok]
          rfl
        · exact hc1
        · exact ha1
        · intro hn
          simpa using hn
    | true =>
        obtain ⟨hp1, hf1⟩ := hok1 hok
        refine ⟨[newRow c db n src.width src.height], hp1, ?_, ?_, ?_, hc1, ha1, ?_⟩
        · rw [List.takeWhile_cons, if_pos (by rw [hok])]
          rfl
        · intro r hr
          rw [List.mem_singleton.mp hr]
          rfl
        · rw [hf1, List.all_cons, hok]
          rfl
        · intro hn
          exact nodup_append_row db.pages _ hn (newRow_fresh c db n _ _)

theorem range'_split (s a b : Nat) :
    List.range' s (a + b) = List.range' s a ++ List.range' (s + a) b := by
  have h := List.range'_append s a b 1
  rw [one_mul] at h
  rw [Nat.add_comm a b]
  exact h.symm

theorem processLoop_spec (c : Nat) (textOk : Nat → Bool) :
    ∀ (L : List (PageClassification × SourcePage)) (db : Db) (n : Nat),
      ∃ rows : List PageRow,
        (processLoop c textOk db L n).1.pages = db.pages ++ rows ∧
        rows.map (fun p => p.pageNumber)
          = (List.range' n (totalOutput (L.map Prod.fst))).takeWhile textOk ∧
        (∀ r ∈ rows, r.catalogId = c) ∧
        ((processLoop c textOk db L n).2
          = (List.range' n (totalOutput (L.map Prod.fst))).all textOk) ∧
        ((processLoop c textOk db L n).1.catalogs = db.catalogs) ∧
        ((processLoop c textOk db L n).1.areas = db.areas) ∧
        ((db.pages.map (fun p => p.id)).Nodup →
          ((db.pages ++ rows).map (fun p => p.id)).Nodup) := by
  intro L
  induction L with
  | nil =>
      intro db n
      refine ⟨[], by simp [processLoop], ?_, ?_, ?_, rfl, rfl, fun hn => by simpa using hn⟩
      · simp [totalOutput]
      · intro r hr
        cases hr
      · simp [processLoop, totalOutput]
  | cons e rest ih =>
      intro db n
      obtain ⟨rows1, hP, hN, hC, hF, hCat, hAr, hNd⟩ :=
        processSource_spec c textOk db e.1 e.2 n
      have htot : totalOutput ((e :: rest).map Prod.fst)
          = pageSpan e.1 + totalOutput (rest.map Prod.fst) := by
        rw [List.map_cons, totalOutput_cons]
      have hsplit : List.range' n (totalOutput ((e :: rest).map Prod.fst))
          = List.range' n (pageSpan e.1)
              ++ List.range' (n + pageSpan e.1) (totalOutput (rest.map Prod.fst)) := by
        rw [htot, range'_split]
      simp only [processLoop]
      cases hfv : (processSource c textOk db e.1 e.2 n).2 with
      | true =>
          rw [if_pos rfl]
          have hall : (List.range' n (pageSpan e.1)).all textOk = true := by
            rw [← hF, hfv]
          obtain ⟨rows', hP', hN', hC', hF', hCat', hAr', hNd'⟩ :=
            ih (processSource c textOk db e.1 e.2 n).1 (n + pageSpan e.1)
          refine ⟨rows1 ++ rows', ?_, ?_, ?_, ?_, ?_, ?_, ?_⟩
          · rw [hP', hP, List.append_assoc]
          · rw [List.map_append, hN, hN', takeWhile_of_all textOk _ hall, hsplit,
              takeWhile_append_all textOk _ _ hall]
          · intro r hr
            rcases List.mem_append.mp hr with hr | hr
            · exact hC r hr
            · exact hC' r hr
          · rw [hF', hsplit, List.all_append, hall]
            rfl
          · rw [hCat', hCat]
          · rw [hAr', hAr]
          · intro hn
            have h1 := hNd hn
            have h2 := hP ▸ hNd'
            have h3 := h2 h1
            rw [List.append_assoc] at h3
            exact h3
      | false =>
          rw [if_neg (show ¬ ((false : Bool) = true) from fun he => nomatch he)]
          have hall : (List.range' n (pageSpan e.1)).all textOk = false := by
            rw [← hF, hfv]
          refine ⟨rows1, hP, ?_, hC, ?_, hCat, hAr, hNd⟩
          · rw [hN, hsplit, takeWhile_append_stop textOk _ _ hall]
          · rw [hfv, hsplit, List.all_append, hall]
            rfl

theorem setCatalog_mem (db : Db) (c : Nat) (f : CatalogRow → CatalogRow) :
    ∀ r ∈ (setCatalog db c f).catalogs, r.id = c →
      ∃ r0 ∈ db.catalogs, r0.id = c ∧ r = f r0 := by
  intro r hr hid
  unfold setCatalog at hr
  simp only [List.mem_map] at hr
  obtain ⟨r0, hr0, hg⟩ := hr
  by_cases hc : r0.id = c
  · rw [if_pos hc] at hg
    exact ⟨r0, hr0, hc, hg.symm⟩
  · rw [if_neg hc] at hg
    rw [← hg] at hid
    exact absurd hid hc

theorem catPages_append_rows (dbp : List PageRow) (rows : List PageRow) (c : Nat)
    (hC : ∀ r ∈ rows, r.catalogId = c) :
    (dbp ++ rows).filter (fun p => p.catalogId = c)
      = dbp.filter (fun p => p.catalogId = c) ++ rows := by
  rw [List.filter_append]
  congr 1
  rw [List.filter_eq_self]
  intro r hr
  simp [hC r hr]

theorem runCatalog_spec (db : Db) (c : Nat) (doc : List SourcePage)
    (textOk : Nat → Bool) :
    (pageNums (runCatalog db c doc textOk) c
      = pageNums db c
          ++ (List.range' 1 (totalOutput (analyzePages doc))).takeWhile textOk) ∧
    (∀ r ∈ (runCatalog db c doc textOk).catalogs, r.id = c →
      r.totalPages = totalOutput (analyzePages doc) ∧
      r.status = (if (List.range' 1 (totalOutput (analyzePages doc))).all textOk
        then CatStatus.ready else CatStatus.error)) := by
  obtain ⟨rows, hP, hN, hC, hF, hCat, hAr, hNd⟩ :=
    processLoop_spec c textOk ((analyzePages doc).zip doc) (runStart db c doc) 1
  have hfst : ((analyzePages doc).zip doc).map Prod.fst = analyzePages doc :=
    zip_fst_analyze doc
  rw [hfst] at hN hF
  have hpages1 : (runStart db c doc).pages = db.pages := rfl
  constructor
  · show (catPages (runCatalog db c doc textOk) c).map (fun p => p.pageNumber) = _
    have hcat1 : catPages (runCatalog db c doc textOk) c
        = catPages db c ++ rows := by
      simp only [runCatalog]
      cases hfv : (processLoop c textOk (runStart db c doc)
          ((analyzePages doc).zip doc) 1).2 with
      | true =>
          rw [if_pos rfl]
          show ((processLoop c textOk (runStart db c doc)
              ((analyzePages doc).zip doc) 1).1.pages).filter _ = _
          rw [hP, hpages1]
          exact catPages_append_rows db.pages rows c hC
      | false =>
          rw [if_neg (show ¬ ((false : Bool) = true) from fun he => nomatch he)]
          show ((processLoop c textOk (runStart db c doc)
              ((analyzePages doc).zip doc) 1).1.pages).filter _ = _
          rw [hP, hpages1]
          exact catPages_append_rows db.pages rows c hC
    rw [hcat1, List.map_append, hN]
    rfl
  · intro r hr hid
    simp only [runCatalog] at hr
    cases hfv : (processLoop c textOk (runStart db c doc)
        ((analyzePages doc).zip doc) 1).2 with
    | true =>
        rw [if_pos hfv] at hr
        obtain ⟨r1, hr1, hid1, hre⟩ := setCatalog_mem _ c _ r hr hid
        rw [hCat] at hr1
        obtain ⟨r0, hr0, hid0, hre0⟩ := setCatalog_mem db c _ r1 hr1 hid1
        have hall : (List.range' 1 (totalOutput (analyzePages doc))).all textOk = true := by
          rw [← hF, hfv]
        rw [hall, if_pos rfl]
        constructor
        · rw [hre, hre0]
        · rw [hre]
    | false =>
        rw [if_neg (by rw [hfv]; exact fun he => nomatch he)] at hr
        obtain ⟨r1, hr1, hid1, hre⟩ := setCatalog_mem _ c _ r hr hid
        rw [hCat] at hr1
        obtain ⟨r0, hr0, hid0, hre0⟩ := setCatalog_mem db c _ r1 hr1 hid1
        have hall : (List.range' 1 (totalOutput (analyzePages doc))).all textOk = false := by
          rw [← hF, hfv]
        rw [hall, if_neg (fun he => nomatch he)]
        constructor
        · rw [hre, hre0]
        · rw [hre]

/-- **C2** (amended): a text-extraction failure is fatal, not non-fatal:
when some output page's extraction fails, the failing page is not
persisted at all (only the output pages strictly before the first failure
are — the `takeWhile` prefix), processing of the remaining pages is
abandoned, and the catalog ends in status `error`.  The source logs
`Text extraction error` and rethrows; `process` catches it and stores the
error status. -/
theorem textExtractionFatal (db : Db) (c : Nat) (doc : List SourcePage)
    (textOk : Nat → Bool)
    (hfail : (List.range' 1 (totalOutput (analyzePages doc))).all textOk = false) :
    (∀ r ∈ (runCatalog db c doc textOk).catalogs, r.id = c →
      r.status = CatStatus.error) ∧
    pageNums (runCatalog db c doc textOk) c
      = pageNums db c
          ++ (List.range' 1 (totalOutput (analyzePages doc))).takeWhile textOk := by
  obtain ⟨hnums, hstat⟩ := runCatalog_spec db c doc textOk
  refine ⟨?_, hnums⟩
  intro r hr hid
  have hs := (hstat r hr hid).2
  rw [hfail] at hs
  simpa using hs

/-- Witness for `textExtractionFatal`: a fresh two-page catalog whose
first page's text extraction fails. -/
theorem textExtractionFatalWitness :
    (∀ r ∈ (runCatalog exFreshDb 1 [⟨100, 100⟩, ⟨100, 100⟩]
        (fun n => ¬ n = 1)).catalogs, r.id = 1 → r.status = CatStatus.error) ∧
    pageNums (runCatalog exFreshDb 1 [⟨100, 100⟩, ⟨100, 100⟩] (fun n => ¬ n = 1)) 1
      = pageNums exFreshDb 1
          ++ (List.range' 1 (totalOutput (analyzePages
                [⟨100, 100⟩, ⟨100, 100⟩]))).takeWhile (fun n => ¬ n = 1) :=
  textExtractionFatal exFreshDb 1 [⟨100, 100⟩, ⟨100, 100⟩] (fun n => ¬ n = 1)
    (by decide)

theorem outputNumbers_flatten :
    ∀ (struct : List PageClassification) (n : Nat),
      (outputNumbersFrom n struct).flatten = List.range' n (totalOutput struct) := by
  intro struct
  induction struct with
  | nil => intro n; rfl
  | cons pc rest ih =>
      intro n
      rw [totalOutput_cons, range'_split]
      unfold outputNumbersFrom
      rw [List.flatten_cons, ih (n + pageSpan pc)]
      congr 1
      by_cases hd : pc.isDoublePage
      · have hspan : pageSpan pc = 2 := by unfold pageSpan; rw [if_pos hd]
        rw [if_pos hd, hspan, range'_split_two n 0]
        rfl
      · have hspan : pageSpan pc = 1 := by unfold pageSpan; rw [if_neg hd]
        rw [if_neg hd, hspan, List.range'_one]

theorem outputNumbers_get :
    ∀ (struct : List PageClassification) (n i : Nat),
      (outputNumbersFrom n struct)[i]?
        = struct[i]?.map (fun pc =>
            if pc.isDoublePage
            then [n + totalOutput (struct.take i), n + totalOutput (struct.take i) + 1]
            else [n + totalOutput (struct.take i)]) := by
  intro struct
  induction struct with
  | nil =>
      intro n i
      cases i <;> rfl
  | cons pc rest ih =>
      intro n i
      cases i with
      | zero =>
          simp [outputNumbersFrom, totalOutput]
      | succ j =>
          show (outputNumbersFrom n (pc :: rest))[j + 1]? = _
          unfold outputNumbersFrom
          rw [List.getElem?_cons_succ, List.getElem?_cons_succ, ih (n + pageSpan pc) j]
          cases hrj : rest[j]? with
          | none => rfl
          | some pc' =>
              simp only [Option.map_some']
              have harith : n + pageSpan pc + totalOutput (rest.take j)
                  = n + totalOutput ((pc :: rest).take (j + 1)) := by
                rw [List.take_succ_cons, totalOutput_cons]
                omega
              rw [harith]

/-- **C4**: the catalog assembler records the total output page count —
the sum over source pages of 2 for a double page and 1 for a single — once
at the start with status `processing`; output numbers are assigned in
source order starting at 1 with a double page occupying `n` and `n + 1`
(the i-th source page starts at `1 + Σ spans of its predecessors`, and the
assigned numbers flatten to exactly `1..total`); a fully successful run
persists exactly those numbers; and the `[1.0, 2.0, 1.2]` scenario yields
4 output pages with source page 2 at output 2 and 3 and source page 3 at
output 4. -/
theorem catalogAssemblerNumbering :
    (∀ (db : Db) (c : Nat) (doc : List SourcePage),
      ∀ r ∈ (runStart db c doc).catalogs, r.id = c →
        r.totalPages = totalOutput (analyzePages doc) ∧
        r.status = CatStatus.processing) ∧
    (∀ (struct : List PageClassification) (n : Nat),
      (outputNumbersFrom n struct).flatten = List.range' n (totalOutput struct)) ∧
    (∀ (struct : List PageClassification) (n i : Nat),
      (outputNumbersFrom n struct)[i]?
        = struct[i]?.map (fun pc =>
            if pc.isDoublePage
            then [n + totalOutput (struct.take i), n + totalOutput (struct.take i) + 1]
            else [n + totalOutput (struct.take i)])) ∧
    (∀ (db : Db) (c : Nat) (doc : List SourcePage) (textOk : Nat → Bool),
      (∀ m, textOk m = true) →
      pageNums (runCatalog db c doc textOk) c
        = pageNums db c ++ List.range' 1 (totalOutput (analyzePages doc))) ∧
    (totalOutput (analyzePages scenarioDoc) = 4 ∧
      outputNumbersFrom 1 (analyzePages scenarioDoc) = [[1], [2, 3], [4]]) := by
  refine ⟨?_, outputNumbers_flatten, outputNumbers_get, ?_, by decide⟩
  · intro db c doc r hr hid
    obtain ⟨r0, hr0, hid0, hre⟩ := setCatalog_mem db c _ r hr hid
    rw [hre]
    exact ⟨rfl, rfl⟩
  · intro db c doc textOk hok
    have hall : (List.range' 1 (totalOutput (analyzePages doc))).all textOk = true :=
      List.all_eq_true.mpr (fun m _ => hok m)
    have h := (runCatalog_spec db c doc textOk).1
    rw [takeWhile_of_all textOk _ hall] at h
    exact h

/-- Witness for `catalogAssemblerNumbering`: the fully successful scenario
run appends exactly the numbers `1..4`. -/
theorem catalogAssemblerNumberingWitness :
    pageNums (runCatalog exFreshDb 1 scenarioDoc (fun _ => true)) 1
      = pageNums exFreshDb 1 ++ List.range' 1 (totalOutput (analyzePages scenarioDoc)) :=
  catalogAssemblerNumbering.2.2.2.1 exFreshDb 1 scenarioDoc (fun _ => true)
    (fun _ => rfl)

theorem inv_of_eq (db1 db2 : Db) (c : Nat) (hp : db2.pages = db1.pages)
    (hc : db2.catalogs = db1.catalogs) (h : Inv db1 c) : Inv db2 c := by
  obtain ⟨hi, hn, ht⟩ := h
  refine ⟨?_, ?_, ?_⟩
  · unfold IdsOk
    rw [hp]
    exact hi
  · unfold NumsOk pageNums catPages
    rw [hp]
    exact hn
  · unfold TotalOk catPages
    rw [hp, hc]
    exact ht

theorem catPages_ids_nodup (db : Db) (c : Nat) (h : IdsOk db) :
    ((catPages db c).map (fun p => p.id)).Nodup :=
  List.Nodup.sublist (List.Sublist.map _ (List.filter_sublist db.pages)) h

theorem lookup_map_row (f : PageRow → Nat) (l : List PageRow) (q : PageRow)
    (hids : (l.map (fun p => p.id)).Nodup) (hq : q ∈ l) :
    (l.map (fun p => (p.id, f p))).lookup q.id = some (f q) := by
  induction l with
  | nil => cases hq
  | cons r t ih =>
      rw [List.map_cons, List.nodup_cons] at hids
      rcases List.mem_cons.mp hq with rfl | hq'
      · rw [List.map_cons, lookup_cons_self]
      · have hne : ¬ q.id = r.id := by
          intro he
          exact hids.1 (he ▸ List.mem_map_of_mem (fun p => p.id) hq')
        rw [List.map_cons, lookup_cons_ne q.id r.id (f r) _ hne]
        exact ih hids.2 hq'

theorem lookup_of_mem_keys {β : Type} (a : Nat) (l : List (Nat × β))
    (h : a ∈ l.map Prod.fst) : ∃ b, List.lookup a l = some b := by
  induction l with
  | nil => cases h
  | cons u t ih =>
      obtain ⟨k, v⟩ := u
      by_cases he : a = k
      · subst he
        exact ⟨v, lookup_cons_self a v t⟩
      · rw [lookup_cons_ne a k v t he]
        refine ih ?_
        rcases List.mem_cons.mp h with h' | h'
        · exact absurd h' he
        · exact h'

theorem deletePage_inv (db : Db) (c : Nat) (pid : Nat) (h0 : Inv db c)
    (hex : ∃ p ∈ catPages db c, p.id = pid) :
    Inv (deletePage db pid) c := by
  obtain ⟨hids, hnums, htot⟩ := h0
  obtain ⟨p, hpmem, hpid⟩ := hex
  have hpc : p.catalogId = c := by
    have h := (List.mem_filter.mp hpmem).2
    simpa using h
  have hpdb : p ∈ db.pages := (List.mem_filter.mp hpmem).1
  subst hpid
  have hfind : findPage db p.id = some p := find_by_id db.pages p hids hpdb
  simp only [deletePage, hfind, catPages, deleteAreas_pages, removePageRow_pages,
    unlinkPageFiles_pages]
  rw [hpc]
  set pages2 := db.pages.filter (fun q => ¬ q.id = p.id) with hpages2
  set remaining := sortByNumber (pages2.filter (fun q => q.catalogId = c)) with hremdef
  have hids2 : (pages2.map (fun q => q.id)).Nodup :=
    List.Nodup.sublist (List.Sublist.map _ (List.filter_sublist db.pages)) hids
  have hremperm : remaining.Perm (pages2.filter (fun q => q.catalogId = c)) :=
    List.mergeSort_perm _ _
  have hfilids : ((pages2.filter (fun q => q.catalogId = c)).map
      (fun q => q.id)).Nodup :=
    List.Nodup.sublist (List.Sublist.map _ (List.filter_sublist pages2)) hids2
  have hremids : (remaining.map (fun q => q.id)).Nodup :=
    ((hremperm.map (fun q => q.id)).nodup_iff).mpr hfilids
  have hremsub : ∀ r ∈ remaining, r ∈ pages2 :=
    fun r hr => (List.mem_filter.mp (hremperm.subset hr)).1
  have hloop : renumberLoop pages2 0 remaining
      = pages2.map (renumberFix 0 remaining) :=
    renumberLoop_eq_map remaining pages2 0 hids2 hremids hremsub
  rw [hloop]
  have hcatmap : (pages2.map (renumberFix 0 remaining)).filter
        (fun q => q.catalogId = c)
      = (pages2.filter (fun q => q.catalogId = c)).map (renumberFix 0 remaining) :=
    filter_map_pres _ (renumberFix_catalog remaining 0) pages2 c
  have hnums3 : ((remaining.map (renumberFix 0 remaining)).map
        (fun q => q.pageNumber))
      = List.range' 1 remaining.length :=
    renumberFix_nums remaining 0 hremids
  refine ⟨?_, ?_, ?_⟩
  · unfold IdsOk
    rw [setCatalog_pages]
    rw [map_ids_of_pres _ (renumberFix_id remaining 0) pages2]
    exact hids2
  · unfold NumsOk pageNums catPages
    rw [setCatalog_pages, hcatmap]
    have hlen : ((pages2.filter (fun q => q.catalogId = c)).map
          (renumberFix 0 remaining)).length = remaining.length := by
      rw [List.length_map]
      exact (hremperm.length_eq).symm
    rw [hlen]
    have hpermmap := (hremperm.symm).map (renumberFix 0 remaining)
    have := hpermmap.map (fun q => q.pageNumber)
    rw [hnums3] at this
    exact this
  · unfold TotalOk
    intro r hr hid
    obtain ⟨r0, hr0, hid0, hre⟩ := setCatalog_mem _ c _ r hr hid
    rw [hre]
    show remaining.length = _
    unfold catPages
    rw [setCatalog_pages, hcatmap, List.length_map]
    exact hremperm.length_eq

theorem reorderPages_inv (db : Db) (c : Nat) (orders : List (Nat × Nat))
    (h0 : Inv db c)
    (hkeys : (orders.map Prod.fst).Perm ((catPages db c).map (fun p => p.id)))
    (hvals : (orders.map Prod.snd).Perm
      (List.range' 1 (catPages db c).length)) :
    Inv (reorderPages db c orders) c := by
  obtain ⟨hids, hnums, htot⟩ := h0
  have hval : orders.all (fun o => 1 ≤ o.2) = true := by
    rw [List.all_eq_true]
    intro o ho
    have hmem : o.2 ∈ List.range' 1 (catPages db c).length :=
      hvals.subset (List.mem_map_of_mem Prod.snd ho)
    have h := List.mem_range'_1.mp hmem
    simpa using h.1
  unfold reorderPages
  rw [if_pos hval]
  cases hcat : findCatalog db c with
  | none => exact ⟨hids, hnums, htot⟩
  | some row =>
      have hcatids : ((catPages db c).map (fun p => p.id)).Nodup :=
        catPages_ids_nodup db c hids
      have hkeysnd : (orders.map Prod.fst).Nodup :=
        (hkeys.nodup_iff).mpr hcatids
      have hfold : orders.foldl (reorderStep c) db.pages
          = db.pages.map (reorderFix c orders) :=
        reorderFold_eq_map c orders db.pages hkeysnd
      have hGid : ∀ p, (reorderFix c orders p).id = p.id := by
        intro p
        unfold reorderFix
        by_cases hc' : p.catalogId = c
        · rw [if_pos hc']
          exact lookupFix_id orders p
        · rw [if_neg hc']
      have hGcat : ∀ p, (reorderFix c orders p).catalogId = p.catalogId := by
        intro p
        unfold reorderFix
        by_cases hc' : p.catalogId = c
        · rw [if_pos hc']
          exact lookupFix_catalog orders p
        · rw [if_neg hc']
      have hcatmap : catPages { db with pages := orders.foldl (reorderStep c) db.pages } c
          = (catPages db c).map (reorderFix c orders) := by
        unfold catPages
        rw [hfold]
        exact filter_map_pres _ hGcat db.pages c
      have hlen : ((catPages db c).map (reorderFix c orders)).length
          = (catPages db c).length := List.length_map _ _
      -- the assigned numbers of the catalog's pages are a permutation of the values
      have hpairs : ((catPages db c).map
            (fun q => (q.id, (reorderFix c orders q).pageNumber))).Perm orders := by
        apply List.Subperm.perm_of_length_le
        · apply List.subperm_of_subset
          · apply List.Nodup.of_map Prod.fst
            have hfst : ((catPages db c).map
                  (fun q => (q.id, (reorderFix c orders q).pageNumber))).map Prod.fst
                = (catPages db c).map (fun p => p.id) := by
              rw [List.map_map]
              rfl
            rw [hfst]
            exact hcatids
          · intro x hx
            simp only [List.mem_map] at hx
            obtain ⟨q, hq, hxeq⟩ := hx
            have hqc : q.catalogId = c := by
              have h := (List.mem_filter.mp hq).2
              simpa using h
            have hqkeys : q.id ∈ orders.map Prod.fst :=
              (hkeys.symm.subset) (List.mem_map_of_mem (fun p => p.id) hq)
            obtain ⟨v, hv⟩ := lookup_of_mem_keys q.id orders hqkeys
            have hnum : (reorderFix c orders q).pageNumber = v := by
              unfold reorderFix
              rw [if_pos hqc]
              unfold lookupFix
              rw [hv]
            rw [← hxeq, hnum]
            exact lookup_mem q.id v orders hv
        · have h1 : ((catPages db c).map
              (fun q => (q.id, (reorderFix c orders q).pageNumber))).length
              = (catPages db c).length := List.length_map _ _
          have h2 : (orders.map Prod.fst).length
              = ((catPages db c).map (fun p => p.id)).length := hkeys.length_eq
          rw [List.length_map, List.length_map] at h2
          rw [h1, ← h2]
      refine ⟨?_, ?_, ?_⟩
      · unfold IdsOk
        show ((orders.foldl (reorderStep c) db.pages).map (fun p => p.id)).Nodup
        rw [hfold, map_ids_of_pres _ hGid]
        exact hids
      · unfold NumsOk pageNums
        rw [hcatmap, hlen]
        have hsnd := hpairs.map Prod.snd
        rw [List.map_map] at hsnd
        have hsnd' : ((catPages db c).map
              (fun q => (reorderFix c orders q).pageNumber)).Perm
            (orders.map Prod.snd) := hsnd
        have hmm : ((catPages db c).map (reorderFix c orders)).map
              (fun p => p.pageNumber)
            = (catPages db c).map (fun q => (reorderFix c orders q).pageNumber) := by
          rw [List.map_map]
          rfl
        rw [hmm]
        exact hsnd'.trans hvals
      · unfold TotalOk
        intro r hr hid
        show r.totalPages = (catPages _ c).length
        rw [hcatmap, hlen]
        exact htot r hr hid

theorem insertPages_inv (db : Db) (c : Nat) (position : Nat) (doc : List SourcePage)
    (textOk : Nat → Bool) (h0 : Inv db c) (hpos1 : 1 ≤ position)
    (hposN : position ≤ (catPages db c).length + 1) (hok : ∀ n, textOk n = true) :
    Inv (insertPages db c position doc textOk) c := by
  obtain ⟨hids, hnums, htot⟩ := h0
  simp only [insertPages]
  rw [if_neg (by omega : ¬ position < 1)]
  cases hcat : findCatalog db c with
  | none => exact ⟨hids, hnums, htot⟩
  | some row =>
      set k := totalOutput (analyzePages doc) with hk
      set N := (catPages db c).length with hNdef
      set toShift := (catPages db c).filter (fun p => position ≤ p.pageNumber)
        with htsdef
      set shifts := toShift.map (fun p => (p.id, p.pageNumber + k)) with hshdef
      have hcatids : ((catPages db c).map (fun p => p.id)).Nodup :=
        catPages_ids_nodup db c hids
      have htsids : (toShift.map (fun p => p.id)).Nodup := by
        rw [htsdef]
        exact List.Nodup.sublist (List.Sublist.map _ (List.filter_sublist _)) hcatids
      have hshkeys : shifts.map Prod.fst = toShift.map (fun p => p.id) := by
        rw [hshdef, List.map_map]
        rfl
      have hkeysnd : (shifts.map Prod.fst).Nodup := by
        rw [hshkeys]
        exact htsids
      have hfoldeq : shifts.foldl (fun ps u => updateNumberById ps u.1 u.2) db.pages
          = db.pages.map (lookupFix shifts) :=
        applyIdUpdates_eq_map shifts db.pages hkeysnd
      rw [hfoldeq]
      obtain ⟨rows, hP, hN, hC, hF, hCat, hAr, hNd⟩ :=
        processLoop_spec c textOk ((analyzePages doc).zip doc)
          { db with pages := db.pages.map (lookupFix shifts) } position
      rw [zip_fst_analyze, ← hk] at hN hF
      have hall : (List.range' position k).all textOk = true :=
        List.all_eq_true.mpr (fun m _ => hok m)
      have hflag : (processLoop c textOk
          { db with pages := db.pages.map (lookupFix shifts) }
          ((analyzePages doc).zip doc) position).2 = true := by
        rw [hF, hall]
      rw [hflag, if_pos rfl]
      show Inv (setCatalog (processLoop c textOk
          { db with pages := db.pages.map (lookupFix shifts) }
          ((analyzePages doc).zip doc) position).1 c
          (fun row1 => { row1 with totalPages := (catPages (processLoop c textOk
            { db with pages := db.pages.map (lookupFix shifts) }
            ((analyzePages doc).zip doc) position).1 c).length })) c
      have hrowsnums : rows.map (fun p => p.pageNumber) = List.range' position k := by
        rw [hN, takeWhile_of_all textOk _ hall]
      have hrowslen : rows.length = k := by
        have h := congrArg List.length hrowsnums
        rw [List.length_map, List.length_range'] at h
        exact h
      have hcat1 : catPages { db with pages := db.pages.map (lookupFix shifts) } c
          = (catPages db c).map (lookupFix shifts) := by
        unfold catPages
        exact filter_map_pres _ (lookupFix_catalog shifts) db.pages c
      have hcat2 : catPages (processLoop c textOk
            { db with pages := db.pages.map (lookupFix shifts) }
            ((analyzePages doc).zip doc) position).1 c
          = (catPages db c).map (lookupFix shifts) ++ rows := by
        unfold catPages
        rw [hP]
        show (((db.pages.map (lookupFix shifts)) ++ rows).filter _) = _
        rw [catPages_append_rows _ rows c hC,
          filter_map_pres _ (lookupFix_catalog shifts) db.pages c]
      have hpoint : ∀ q ∈ catPages db c, (lookupFix shifts q).pageNumber
          = (if position ≤ q.pageNumber then q.pageNumber + k else q.pageNumber) := by
        intro q hq
        by_cases hge : position ≤ q.pageNumber
        · rw [if_pos hge]
          have hqts : q ∈ toShift := by
            rw [htsdef]
            exact List.mem_filter.mpr ⟨hq, by simpa using hge⟩
          unfold lookupFix
          rw [hshdef, lookup_map_row (fun p => p.pageNumber + k) toShift q htsids hqts]
        · rw [if_neg hge]
          have hnot : ¬ q.id ∈ shifts.map Prod.fst := by
            rw [hshkeys]
            intro hmem
            simp only [List.mem_map] at hmem
            obtain ⟨r, hr, hre⟩ := hmem
            have hrcat : r ∈ catPages db c := by
              rw [htsdef] at hr
              exact (List.mem_filter.mp hr).1
            have hreq : r = q :=
              List.inj_on_of_nodup_map hcatids hrcat hq hre
            rw [htsdef] at hr
            have hge' := (List.mem_filter.mp hr).2
            rw [hreq] at hge'
            simp only [decide_eq_true_eq] at hge'
            exact hge hge'
          unfold lookupFix
          rw [lookup_eq_none _ _ hnot]
      have hnums1 : ((catPages db c).map (lookupFix shifts)).map (fun p => p.pageNumber)
          = ((catPages db c).map (fun p => p.pageNumber)).map
              (fun m => if position ≤ m then m + k else m) := by
        rw [List.map_map, List.map_map]
        exact List.map_congr_left (fun q hq => hpoint q hq)
      have hsplitN : List.range' 1 N
          = List.range' 1 (position - 1) ++ List.range' position (N + 1 - position) := by
        have h := range'_split 1 (position - 1) (N + 1 - position)
        rw [show 1 + (position - 1) = position from by omega] at h
        rw [show (position - 1) + (N + 1 - position) = N from by omega] at h
        exact h
      have hmap1 : (List.range' 1 (position - 1)).map
          (fun m => if position ≤ m then m + k else m)
          = List.range' 1 (position - 1) := by
        apply map_eq_self_of_id
        intro m hm
        have h := List.mem_range'_1.mp hm
        rw [if_neg (by omega)]
      have hmap2 : (List.range' position (N + 1 - position)).map
          (fun m => if position ≤ m then m + k else m)
          = List.range' (position + k) (N + 1 - position) := by
        have hcongr : (List.range' position (N + 1 - position)).map
            (fun m => if position ≤ m then m + k else m)
            = (List.range' position (N + 1 - position)).map (fun m => k + m) := by
          apply List.map_congr_left
          intro m hm
          have h := List.mem_range'_1.mp hm
          rw [if_pos h.1]
          omega
        rw [hcongr, List.map_add_range']
        rw [show k + position = position + k from by omega]
      refine ⟨?_, ?_, ?_⟩
      · unfold IdsOk
        rw [setCatalog_pages, hP]
        apply hNd
        show ((db.pages.map (lookupFix shifts)).map (fun p => p.id)).Nodup
        rw [map_ids_of_pres _ (lookupFix_id shifts)]
        exact hids
      · unfold NumsOk pageNums
        rw [catPages_setCatalog, hcat2]
        have hlenfin : ((catPages db c).map (lookupFix shifts) ++ rows).length
            = N + k := by
          rw [List.length_append, List.length_map, hrowslen, ← hNdef]
        rw [hlenfin, List.map_append, hnums1, hrowsnums]
        have hperm1 : (((catPages db c).map (fun p => p.pageNumber)).map
              (fun m => if position ≤ m then m + k else m)).Perm
            ((List.range' 1 N).map (fun m => if position ≤ m then m + k else m)) :=
          (hnums.map _)
        have heq2 : (List.range' 1 N).map (fun m => if position ≤ m then m + k else m)
            = List.range' 1 (position - 1) ++ List.range' (position + k)
                (N + 1 - position) := by
          rw [hsplitN, List.map_append, hmap1, hmap2]
        have hperm3 : (List.range' 1 (position - 1)
              ++ List.range' (position + k) (N + 1 - position)
              ++ List.range' position k).Perm (List.range' 1 (N + k)) := by
          have hstep1 : (List.range' (position + k) (N + 1 - position)
                ++ List.range' position k).Perm
              (List.range' position k ++ List.range' (position + k) (N + 1 - position)) :=
            List.perm_append_comm
          have hstep2 : List.range' position k
                ++ List.range' (position + k) (N + 1 - position)
              = List.range' position (k + (N + 1 - position)) :=
            (range'_split position k (N + 1 - position)).symm
          have hstep3 : List.range' 1 (position - 1)
                ++ List.range' position (k + (N + 1 - position))
              = List.range' 1 (N + k) := by
            have h := range'_split 1 (position - 1) (k + (N + 1 - position))
            rw [show 1 + (position - 1) = position from by omega] at h
            rw [show (position - 1) + (k + (N + 1 - position)) = N + k from by omega] at h
            exact h.symm
          rw [List.append_assoc]
          refine List.Perm.trans (List.Perm.append_left _ hstep1) ?_
          rw [hstep2, hstep3]
        refine List.Perm.trans (List.Perm.append_right _ hperm1) ?_
        rw [heq2]
        exact hperm3
      · unfold TotalOk
        intro r hr hid
        obtain ⟨r0, hr0, hid0, hre⟩ := setCatalog_mem _ c _ r hr hid
        rw [hre]
        show (catPages _ c).length = (catPages _ c).length
        rw [catPages_setCatalog]

theorem replacePage_inv (db : Db) (c : Nat) (pid : Nat) (doc : List SourcePage)
    (textOk : Nat → Bool) (h0 : Inv db c)
    (hex : ∃ p ∈ catPages db c, p.id = pid) (hok : ∀ n, textOk n = true) :
    Inv (replacePage db pid doc textOk).2 c := by
  obtain ⟨hids, hnums, htot⟩ := h0
  obtain ⟨p, hpmem, hpid⟩ := hex
  have hpc : p.catalogId = c := by
    have h := (List.mem_filter.mp hpmem).2
    simpa using h
  have hpdb : p ∈ db.pages := (List.mem_filter.mp hpmem).1
  subst hpid
  have hcatids : ((catPages db c).map (fun q => q.id)).Nodup :=
    catPages_ids_nodup db c hids
  have hfind : findPage db p.id = some p := find_by_id db.pages p hids hpdb
  simp only [replacePage, hfind]
  cases doc with
  | nil =>
      refine inv_of_eq db _ c ?_ ?_ ⟨hids, hnums, htot⟩
      · exact (deleteAreas_pages _ _).trans (unlinkPageFiles_pages db p)
      · exact (deleteAreas_catalogs _ _).trans (unlinkPageFiles_catalogs db p)
  | cons q rest =>
      cases rest with
      | cons q2 rest2 =>
          refine inv_of_eq db _ c ?_ ?_ ⟨hids, hnums, htot⟩
          · exact (deleteAreas_pages _ _).trans (unlinkPageFiles_pages db p)
          · exact (deleteAreas_catalogs _ _).trans (unlinkPageFiles_catalogs db p)
      | nil =>
          rw [hpc]
          set db3 := removePageRow (deleteAreas (unlinkPageFiles db p) p.id) p.id
            with hdb3
          have hdb3pages : db3.pages = db.pages.filter (fun q' => ¬ q'.id = p.id) := by
            rw [hdb3, removePageRow_pages, deleteAreas_pages, unlinkPageFiles_pages]
          have hdb3cats : db3.catalogs = db.catalogs := by
            rw [hdb3, removePageRow_catalogs, deleteAreas_catalogs,
              unlinkPageFiles_catalogs]
          show Inv (if (processOne c textOk db3 q.width q.height p.pageNumber).2 = true
              then ((ReplaceOutcome.ok,
                (processOne c textOk db3 q.width q.height p.pageNumber).1) :
                  ReplaceOutcome × Db)
              else (ReplaceOutcome.serverError,
                (processOne c textOk db3 q.width q.height p.pageNumber).1)).2 c
          obtain ⟨hc4, ha4, hok4, hfail4⟩ :=
            processOne_spec c textOk db3 q.width q.height p.pageNumber
          obtain ⟨hp4, hf4⟩ := hok4 (hok p.pageNumber)
          rw [hf4, if_pos rfl]
          show Inv (processOne c textOk db3 q.width q.height p.pageNumber).1 c
          set row := newRow c db3 p.pageNumber q.width q.height with hrowdef
          have hrowcat : row.catalogId = c := rfl
          have hrownum : row.pageNumber = p.pageNumber := rfl
          have hfilids : ((db.pages.filter (fun q' => ¬ q'.id = p.id)).map
              (fun q' => q'.id)).Nodup :=
            List.Nodup.sublist (List.Sublist.map _ (List.filter_sublist _)) hids
          have hcatperm : (catPages db c).Perm
              (p :: (catPages db c).filter (fun q' => ¬ q'.id = p.id)) :=
            perm_filter_out (catPages db c) p hcatids hpmem
          have hcat3 : catPages db3 c
              = (catPages db c).filter (fun q' => ¬ q'.id = p.id) := by
            show db3.pages.filter (fun q' => q'.catalogId = c) = _
            rw [hdb3pages, List.filter_comm]
            rfl
          have hcat4 : catPages (processOne c textOk db3 q.width q.height
                p.pageNumber).1 c
              = catPages db3 c ++ [row] := by
            unfold catPages
            rw [hp4]
            exact catPages_append_rows _ [row] c
              (fun r hr => by rw [List.mem_singleton.mp hr]; exact hrowcat)
          have hlen4 : (catPages (processOne c textOk db3 q.width q.height
                p.pageNumber).1 c).length = (catPages db c).length := by
            rw [hcat4, List.length_append, hcat3]
            have hl := hcatperm.length_eq
            rw [List.length_cons] at hl
            simp only [List.length_cons, List.length_nil]
            omega
          refine ⟨?_, ?_, ?_⟩
          · unfold IdsOk
            rw [hp4]
            refine nodup_append_row db3.pages row ?_ (newRow_fresh c db3 p.pageNumber _ _)
            rw [hdb3pages]
            exact hfilids
          · unfold NumsOk pageNums
            rw [hcat4]
            have hlen4' : (catPages db3 c ++ [row]).length = (catPages db c).length := by
              rw [← hcat4]
              exact hlen4
            rw [hlen4', hcat3, List.map_append]
            have h1 : (((catPages db c).filter (fun q' => ¬ q'.id = p.id)).map
                  (fun q' => q'.pageNumber) ++ [row].map (fun q' => q'.pageNumber)).Perm
                ((p :: (catPages db c).filter (fun q' => ¬ q'.id = p.id)).map
                    (fun q' => q'.pageNumber)) := by
              rw [List.map_cons]
              have h2 := List.perm_append_singleton row.pageNumber
                (((catPages db c).filter (fun q' => ¬ q'.id = p.id)).map
                  (fun q' => q'.pageNumber))
              rw [hrownum] at h2
              exact h2
            refine h1.trans ?_
            refine ((hcatperm.map (fun q' => q'.pageNumber)).symm).trans ?_
            exact hnums
          · unfold TotalOk
            intro r hr hid
            have hcats : (processOne c textOk db3 q.width q.height
                p.pageNumber).1.catalogs = db.catalogs := by
              rw [hc4, hdb3cats]
            rw [hcats] at hr
            rw [hlen4]
            exact htot r hr hid

theorem applyOp_inv (c : Nat) (db : Db) (op : MutationOp) (h0 : Inv db c)
    (hv : ValidOp c db op) : Inv (applyOp c db op) c := by
  cases op with
  | delete pid => exact deletePage_inv db c pid h0 hv
  | reorder orders => exact reorderPages_inv db c orders h0 hv.1 hv.2
  | insert position doc textOk =>
      exact insertPages_inv db c position doc textOk h0 hv.1 hv.2.1 hv.2.2
  | replace pid doc textOk => exact replacePage_inv db c pid doc textOk h0 hv.1 hv.2

end CatalogMaker
